import Mathlib

/-!
Verification development for the `function-performer` package (`src/index.ts`).

The TypeScript class `Performer` keeps four per-strategy registries
(debounce, throttle, deduplication, limitation) keyed by the target
function's identity, and drives them with `setTimeout`/`clearTimeout`.
We embed the class as a state machine `Sys`:

* target functions are opaque identifiers (`FuncId`), since the code keys
  every registry by function reference;
* argument lists are lists of structured values (`JsVal`); the external
  `fast-deep-equal` collaborator is structural equality on such values;
* `setTimeout` appends a timer (fresh id, due time, callback data) to a
  pending list, `clearTimeout` removes by id; firing a timer runs the
  callback body translated from the source;
* invoking a target function appends an `Invocation` record to a trace;
  the oracle `throwing` tells which functions throw when invoked, and a
  throw skips the statements following the call site;
* deduplication call objects live in a heap (`dedupHeap`) because the
  scheduled closure reads `call.count` through the object reference at
  fire time, even after the registry no longer reaches the object.
-/

namespace FunctionPerformer

/-- Opaque identity of a target function: the registries are keyed by
function reference, so an identifier models a function value. -/
abbrev FuncId := Nat

/-- Structured argument values, rich enough to distinguish scalars and
nested data; `fast-deep-equal` is structural equality on them. -/
inductive JsVal where
  | null : JsVal
  | bool (b : Bool) : JsVal
  | num (n : Int) : JsVal
  | str (s : String) : JsVal
  | pair (a b : JsVal) : JsVal
deriving DecidableEq, Repr

/-- Model of the external `fast-deep-equal` collaborator: structural (deep)
equality of argument lists. -/
def isDeepEqual (a b : List JsVal) : Bool := decide (a = b)

/-- `TimedFunctionConfig = { interval?: number }`. -/
structure TimedFunctionConfig where
  interval : Option Nat
deriving DecidableEq, Repr

/-- A `max` bound: a number or `Infinity` (the unbounded sentinel). -/
inductive MaxVal where
  | fin (n : Nat) : MaxVal
  | inf : MaxVal
deriving DecidableEq, Repr

/-- `numberOfCalls < maxNumberOfCalls`, where the bound may be `Infinity`. -/
def MaxVal.ltNat (n : Nat) : MaxVal → Bool
  | .fin m => decide (n < m)
  | .inf => true

/-- `LimitedFunctionConfig = { max?: number }`. -/
structure LimitedFunctionConfig where
  max : Option MaxVal
deriving DecidableEq, Repr

/-- `PerformerConfig`: the four optional per-strategy keys read by the
constructor (`debounce`, `throttle`, `deduplication`, `limitation`). -/
structure PerformerConfig where
  debounce : Option TimedFunctionConfig
  throttle : Option TimedFunctionConfig
  deduplication : Option TimedFunctionConfig
  limitation : Option LimitedFunctionConfig
deriving DecidableEq, Repr

/-- `config?.interval ?? dflt`. -/
def effInterval (config : Option TimedFunctionConfig) (dflt : Nat) : Nat :=
  (config.bind TimedFunctionConfig.interval).getD dflt

/-- `config?.max ?? dflt`. -/
def effMax (config : Option LimitedFunctionConfig) (dflt : MaxVal) : MaxVal :=
  (config.bind LimitedFunctionConfig.max).getD dflt

/-- `DebouncedFunctionCall = { timeout: Timeout | null }`. -/
structure DebouncedFunctionCall where
  timeout : Option Nat
deriving DecidableEq, Repr

/-- `DeduplicatedFunctionCall = { args, timeout, count }`. -/
structure DeduplicatedFunctionCall where
  args : List JsVal
  timeout : Option Nat
  count : Nat
deriving DecidableEq, Repr

/-- The body a scheduled timer will run, translated from the three
`setTimeout` call sites of the source. -/
inductive TimerAction where
  | debounceFire (func : FuncId) (args : List JsVal) : TimerAction
  | throttleFire (func : FuncId) : TimerAction
  | dedupFire (func : FuncId) (callId : Nat) (args : List JsVal) : TimerAction
deriving DecidableEq, Repr

/-- A pending timer: handle, absolute due time, callback body. -/
structure Timer where
  id : Nat
  due : Nat
  action : TimerAction
deriving DecidableEq, Repr

/-- The target function an action would touch. -/
def TimerAction.funcOf : TimerAction → FuncId
  | .debounceFire f _ => f
  | .throttleFire f => f
  | .dedupFire f _ _ => f

/-- One observed invocation of a target function. -/
structure Invocation where
  time : Nat
  func : FuncId
  args : List JsVal
deriving DecidableEq, Repr

/-- Full machine state: virtual clock, timer service, invocation trace and
the four registries of a `Performer` instance. -/
structure Sys where
  now : Nat
  nextTimerId : Nat
  nextCallId : Nat
  pending : List Timer
  trace : List Invocation
  throwing : FuncId → Bool
  debounceCalls : FuncId → Option DebouncedFunctionCall
  throttleCalls : FuncId → Bool
  dedupCalls : FuncId → Option (List Nat)
  dedupHeap : Nat → Option DeduplicatedFunctionCall
  limitCalls : FuncId → Option Nat
  debounceInterval : Nat
  throttleInterval : Nat
  dedupInterval : Nat
  limitMax : MaxVal

/-- Record the (start of the) invocation `func(...args)` at the current
virtual time. -/
def invoke (s : Sys) (func : FuncId) (args : List JsVal) : Sys :=
  { s with trace := s.trace ++ [{ time := s.now, func := func, args := args }] }

/-- `setTimeout(action, delay)`: register a timer due at `now + delay` and
return its fresh handle. -/
def setTimer (s : Sys) (delay : Nat) (action : TimerAction) : Nat × Sys :=
  (s.nextTimerId,
    { s with
        pending := s.pending ++ [{ id := s.nextTimerId, due := s.now + delay, action := action }],
        nextTimerId := s.nextTimerId + 1 })

/-- `clearTimeout(tid)`: drop the pending timer with that handle. -/
def clearTimer (s : Sys) (tid : Nat) : Sys :=
  { s with pending := s.pending.filter (fun tm => tm.id != tid) }

/-- `_debounce(config, func, ...args)` translated line by line: fetch or
create the entry, cancel a pending timeout, schedule the deletion-then-call
body after `config?.interval ?? this._debounceContext.interval`. -/
def Performer.debounce (config : Option TimedFunctionConfig) (func : FuncId)
    (args : List JsVal) (s : Sys) : Sys :=
  let call := (s.debounceCalls func).getD { timeout := none }
  let s₁ : Sys :=
    match call.timeout with
    | none =>
        { s with debounceCalls := Function.update s.debounceCalls func (some { timeout := none }) }
    | some tid =>
        { clearTimer s tid with
            debounceCalls := Function.update s.debounceCalls func (some { timeout := none }) }
  let p := setTimer s₁ (effInterval config s₁.debounceInterval) (.debounceFire func args)
  { p.2 with debounceCalls := Function.update p.2.debounceCalls func (some { timeout := some p.1 }) }

/-- `_throttle(config, func, ...args)`: if `func` is not a member, invoke it
synchronously, then add membership and schedule its removal.  A throw in
`func` propagates, skipping the add and the `setTimeout`.  The timer handle
is discarded by the source. -/
def Performer.throttle (config : Option TimedFunctionConfig) (func : FuncId)
    (args : List JsVal) (s : Sys) : Sys :=
  if s.throttleCalls func then s
  else
    let s₁ := invoke s func args
    if s₁.throwing func then s₁
    else
      let s₂ := { s₁ with throttleCalls := Function.update s₁.throttleCalls func true }
      (setTimer s₂ (effInterval config s₂.throttleInterval) (.throttleFire func)).2

/-- `calls?.find((item) => isDeepEqual(item.args, args))`: linear scan of the
group list for a deep-equal argument list. -/
def findMatch (s : Sys) (callIds : List Nat) (args : List JsVal) : Option Nat :=
  callIds.find? (fun cid =>
    match s.dedupHeap cid with
    | some c => isDeepEqual c.args args
    | none => false)

/-- `_deduplicate(config, func, ...args)`: fetch or create the group list,
scan for a deep-equal group; create a fresh group with count 1, or bump the
count and cancel the matched group's timeout; finally (re)schedule the
group's timer.  The scheduled body captures the current `args` and the call
object (here: its heap id `cid`). -/
def Performer.deduplicate (config : Option TimedFunctionConfig) (func : FuncId)
    (args : List JsVal) (s : Sys) : Sys :=
  let callIds := (s.dedupCalls func).getD []
  let s₀ := { s with dedupCalls := Function.update s.dedupCalls func (some callIds) }
  match findMatch s₀ callIds args with
  | none =>
      let cid := s₀.nextCallId
      let s₁ := { s₀ with
        dedupHeap := Function.update s₀.dedupHeap cid (some { args := args, timeout := none, count := 1 }),
        nextCallId := s₀.nextCallId + 1,
        dedupCalls := Function.update s₀.dedupCalls func (some (callIds ++ [cid])) }
      let p := setTimer s₁ (effInterval config s₁.dedupInterval) (.dedupFire func cid args)
      { p.2 with dedupHeap :=
          Function.update p.2.dedupHeap cid (some { args := args, timeout := some p.1, count := 1 }) }
  | some cid =>
      match s₀.dedupHeap cid with
      | none => s₀
      | some c =>
        let s₁ := { s₀ with
          dedupHeap := Function.update s₀.dedupHeap cid (some { c with count := c.count + 1 }) }
        let s₂ :=
          match c.timeout with
          | some tid =>
              { clearTimer s₁ tid with
                  dedupHeap := Function.update s₁.dedupHeap cid
                    (some { c with count := c.count + 1, timeout := none }) }
          | none => s₁
        let p := setTimer s₂ (effInterval config s₂.dedupInterval) (.dedupFire func cid args)
        { p.2 with dedupHeap := Function.update p.2.dedupHeap cid
                     (some { c with count := c.count + 1, timeout := some p.1 }) }

/-- `_limit(config, func, ...args)`: read the counter (default 0), store
`counter + 1` unconditionally, and invoke only while below the effective
`max`. -/
def Performer.limit (config : Option LimitedFunctionConfig) (func : FuncId)
    (args : List JsVal) (s : Sys) : Sys :=
  let numberOfCalls := (s.limitCalls func).getD 0
  let maxNumberOfCalls := effMax config s.limitMax
  let s₁ := { s with limitCalls := Function.update s.limitCalls func (some (numberOfCalls + 1)) }
  if MaxVal.ltNat numberOfCalls maxNumberOfCalls then invoke s₁ func args else s₁

/-- `call.count` read through the captured call object at fire time. -/
def heapCount (s : Sys) (cid : Nat) : Nat :=
  match s.dedupHeap cid with
  | some c => c.count
  | none => 0

/-- The three scheduled callback bodies.  Debounce fire: delete the entry,
then call `func(...args)`.  Throttle fire: remove membership.  Deduplication
fire: delete the registry entry for `func` (the source deletes the whole
`Map` entry), then call `func(call.count, ...args)`, reading `count` through
the captured call object. -/
def runTimerAction (s : Sys) (action : TimerAction) : Sys :=
  match action with
  | .debounceFire func args =>
      invoke { s with debounceCalls := Function.update s.debounceCalls func none } func args
  | .throttleFire func =>
      { s with throttleCalls := Function.update s.throttleCalls func false }
  | .dedupFire func cid args =>
      let s₁ := { s with dedupCalls := Function.update s.dedupCalls func none }
      invoke s₁ func (JsVal.num (heapCount s₁ cid : Int) :: args)

/-- Extract the earliest-due timer (first in insertion order among the
minimal due times, matching the host's timer queue) together with the
remaining list. -/
def extractEarliest : List Timer → Option (Timer × List Timer)
  | [] => none
  | tm :: rest =>
    match extractEarliest rest with
    | none => some (tm, rest)
    | some (tm₁, rest₁) =>
        if tm₁.due < tm.due then some (tm₁, tm :: rest₁) else some (tm, rest)

/-- The next timer that fires when the clock advances to `t`, if any. -/
def pickDue (t : Nat) (pending : List Timer) : Option (Timer × List Timer) :=
  match extractEarliest pending with
  | none => none
  | some (tm, rest) => if tm.due ≤ t then some (tm, rest) else none

/-- Fire, in due order, every pending timer due at or before `t`; firing a
timer removes it and runs its callback at its due time.  None of the three
callbacks schedules a new timer, so the pending list shrinks and
`s.pending.length` fuel suffices. -/
def advanceLoop : Nat → Nat → Sys → Sys
  | 0, t, s => { s with now := max s.now t }
  | fuel + 1, t, s =>
    match pickDue t s.pending with
    | none => { s with now := max s.now t }
    | some (tm, rest) =>
        advanceLoop fuel t
          (runTimerAction { s with pending := rest, now := max s.now tm.due } tm.action)

/-- Advance the virtual clock to `t`. -/
def advanceTo (t : Nat) (s : Sys) : Sys := advanceLoop s.pending.length t s

/-- An external call into the facade: which strategy, with which per-call
configuration override (`none` models the plain, unconfigured invocation),
on which function, with which arguments. -/
inductive Event where
  | debounce (config : Option TimedFunctionConfig) (func : FuncId) (args : List JsVal) : Event
  | throttle (config : Option TimedFunctionConfig) (func : FuncId) (args : List JsVal) : Event
  | dedup (config : Option TimedFunctionConfig) (func : FuncId) (args : List JsVal) : Event
  | limit (config : Option LimitedFunctionConfig) (func : FuncId) (args : List JsVal) : Event

/-- The function an event targets. -/
def Event.funcOf : Event → FuncId
  | .debounce _ f _ => f
  | .throttle _ f _ => f
  | .dedup _ f _ => f
  | .limit _ f _ => f

/-- Run one strategy operation on the state. -/
def dispatch (e : Event) (s : Sys) : Sys :=
  match e with
  | .debounce c f a => Performer.debounce c f a s
  | .throttle c f a => Performer.throttle c f a s
  | .dedup c f a => Performer.deduplicate c f a s
  | .limit c f a => Performer.limit c f a s

/-- An external call stamped with its arrival time. -/
structure TimedEvent where
  t : Nat
  ev : Event

/-- Process one arrival: let every timer due by then fire, then run the
call (run-to-completion semantics of the host loop). -/
def runEvent (s : Sys) (e : TimedEvent) : Sys := dispatch e.ev (advanceTo e.t s)

/-- Process a chronological stream of external calls. -/
def runScript (script : List TimedEvent) (s : Sys) : Sys := script.foldl runEvent s

/-- The `Performer` constructor: empty registries and the defaults
`config?.debounce?.interval ?? 0`, `config?.throttle?.interval ?? 0`,
`config?.deduplication?.interval ?? 0`, `config?.limitation?.max ?? Infinity`. -/
def Performer.init (config : Option PerformerConfig) (throwing : FuncId → Bool) : Sys :=
  { now := 0
    nextTimerId := 0
    nextCallId := 0
    pending := []
    trace := []
    throwing := throwing
    debounceCalls := fun _ => none
    throttleCalls := fun _ => false
    dedupCalls := fun _ => none
    dedupHeap := fun _ => none
    limitCalls := fun _ => none
    debounceInterval := ((config.bind PerformerConfig.debounce).bind TimedFunctionConfig.interval).getD 0
    throttleInterval := ((config.bind PerformerConfig.throttle).bind TimedFunctionConfig.interval).getD 0
    dedupInterval := ((config.bind PerformerConfig.deduplication).bind TimedFunctionConfig.interval).getD 0
    limitMax := ((config.bind PerformerConfig.limitation).bind LimitedFunctionConfig.max).getD .inf }

/-- `_deconfigure`: the plain invocation passes `null` as the per-call
configuration. -/
def deconfigure {C : Type} (op : Option C → FuncId → List JsVal → Sys → Sys) :
    FuncId → List JsVal → Sys → Sys :=
  op none

/-- `_configure`: the bound invoker returned by `configure(config)` passes
`config` to every call made through it. -/
def configureWith {C : Type} (op : Option C → FuncId → List JsVal → Sys → Sys) (config : C) :
    FuncId → List JsVal → Sys → Sys :=
  op (some config)

/-! ### Observation helpers and invariant predicates -/

/-- The pending timers whose callback touches `f`. -/
def timersFor (f : FuncId) (pending : List Timer) : List Timer :=
  pending.filter (fun tm => tm.action.funcOf == f)

/-- The invocations of `f` in a trace. -/
def traceFor (f : FuncId) (tr : List Invocation) : List Invocation :=
  tr.filter (fun inv => inv.func == f)

/-- Events allowed around a debounce burst on `f`: any debounce call, or a
call (of any strategy) on a different function reference. -/
def okDebEventB (f : FuncId) (e : TimedEvent) : Bool :=
  match e.ev with
  | .debounce _ _ _ => true
  | ev => ev.funcOf != f

/-- Arrival times are nondecreasing, starting no earlier than `t₀`. -/
def monoFrom (t₀ : Nat) : List Nat → Bool
  | [] => true
  | t :: rest => decide (t₀ ≤ t) && monoFrom t rest

/-- The debounce calls on `f` inside a script, as
(arrival time, effective interval, argument list) triples. -/
def debCallOf (f : FuncId) (dflt : Nat) (e : TimedEvent) :
    Option (Nat × Nat × List JsVal) :=
  match e.ev with
  | .debounce c g a => if g = f then some (e.t, effInterval c dflt, a) else none
  | _ => none

/-- All debounce calls on `f` in a script. -/
def fCalls (f : FuncId) (dflt : Nat) (script : List TimedEvent) :
    List (Nat × Nat × List JsVal) :=
  script.filterMap (debCallOf f dflt)

/-- Each listed call arrives strictly less than the effective interval of
the previous one after it (the burst hypothesis); `ph` carries the previous
call, if any. -/
def spacedFrom (ph : Option (Nat × Nat)) : List (Nat × Nat × List JsVal) → Bool
  | [] => true
  | (t, I, _) :: rest =>
    (match ph with
     | some (tp, Ip) => decide (t < tp + Ip)
     | none => true) && spacedFrom (some (t, I)) rest

/-- Every timeout handle stored in a registry slot (debounce entry or
deduplication call object) was allocated before `nextTimerId`. -/
def slotIdsBound (s : Sys) : Prop :=
  (∀ g c, s.debounceCalls g = some c → ∀ tid, c.timeout = some tid → tid < s.nextTimerId) ∧
  (∀ cid c, s.dedupHeap cid = some c → ∀ tid, c.timeout = some tid → tid < s.nextTimerId)

/-- No registry slot other than `f`'s own debounce entry stores the timeout
handle `tid` (so no other call can cancel `f`'s debounce timer). -/
def noSlotHolds (s : Sys) (f : FuncId) (tid : Nat) : Prop :=
  (∀ g, g ≠ f → ∀ c, s.debounceCalls g = some c → c.timeout ≠ some tid) ∧
  (∀ cid c, s.dedupHeap cid = some c → c.timeout ≠ some tid)

/-- No debounce call on `f` has happened yet: no entry, no timer touching
`f`, no invocation of `f`. -/
def DPre (f : FuncId) (s : Sys) : Prop :=
  s.debounceCalls f = none ∧ timersFor f s.pending = [] ∧ traceFor f s.trace = []

/-- A debounce burst on `f` is in flight: its latest call happened at `t`
with effective interval `I` and arguments `a`, and exactly one timer, due at
`t + I`, will fire for `f`. -/
def DPending (f : FuncId) (t I : Nat) (a : List JsVal) (s : Sys) : Prop :=
  ∃ tid,
    s.debounceCalls f = some { timeout := some tid } ∧
    timersFor f s.pending = [{ id := tid, due := t + I, action := .debounceFire f a }] ∧
    traceFor f s.trace = [] ∧
    tid < s.nextTimerId ∧
    noSlotHolds s f tid ∧
    s.now ≤ t + I

/-- The debounce burst has fired: entry deleted, no timer left for `f`, and
exactly one invocation of `f`, at `t + I` with arguments `a`. -/
def DFired (f : FuncId) (t I : Nat) (a : List JsVal) (s : Sys) : Prop :=
  s.debounceCalls f = none ∧
  timersFor f s.pending = [] ∧
  traceFor f s.trace = [{ time := t + I, func := f, args := a }] ∧
  t + I ≤ s.now

/-- Phase of `f`'s debounce lifecycle: no call yet, or a latest call
`(t, I, a)` whose window is either still open or already fired. -/
def DPhase (f : FuncId) (s : Sys) : Option (Nat × Nat × List JsVal) → Prop
  | none => DPre f s
  | some (t, I, a) => DPending f t I a s ∨ DFired f t I a s

/-- The phase reached after further calls `l`: the last of `l`, else `ph`. -/
def lastPh (ph : Option (Nat × Nat × List JsVal)) (l : List (Nat × Nat × List JsVal)) :
    Option (Nat × Nat × List JsVal) :=
  match l.getLast? with
  | some x => some x
  | none => ph

/-! ### Pure-`f` scripts and spec-side reference functions -/

/-- A pure deduplication burst: calls on `f`, all with argument list `a`. -/
def dedupScript (f : FuncId) (a : List JsVal)
    (calls : List (Nat × Option TimedFunctionConfig)) : List TimedEvent :=
  calls.map (fun c => { t := c.1, ev := .dedup c.2 f a })

/-- A pure throttle call sequence on `f`. -/
def throttleScript (f : FuncId)
    (calls : List (Nat × Option TimedFunctionConfig × List JsVal)) : List TimedEvent :=
  calls.map (fun c => { t := c.1, ev := .throttle c.2.1 f c.2.2 })

/-- Reference behaviour of throttling, written from the specification: the
first call at or after the current cooldown deadline is admitted and moves
the deadline to its own time plus its effective interval; the rest are
dropped. -/
def throttleExpect (f : FuncId) (dflt : Nat) (deadline : Nat) :
    List (Nat × Option TimedFunctionConfig × List JsVal) → List Invocation
  | [] => []
  | (t, c, a) :: rest =>
    if deadline ≤ t then
      { time := t, func := f, args := a } :: throttleExpect f dflt (t + effInterval c dflt) rest
    else
      throttleExpect f dflt deadline rest

/-- A synchronous sequence of limit calls on `f`. -/
def runLimitCalls (config : Option LimitedFunctionConfig) (f : FuncId)
    (argss : List (List JsVal)) (s : Sys) : Sys :=
  argss.foldl (fun s a => Performer.limit config f a s) s

/-- Reference behaviour of limiting, written from the specification: with
counter already at `c`, the argument lists of the calls that are admitted. -/
def limitExpect (m : MaxVal) (c : Nat) : List (List JsVal) → List (List JsVal)
  | [] => []
  | a :: rest =>
    if MaxVal.ltNat c m then a :: limitExpect m (c + 1) rest else limitExpect m (c + 1) rest

/-- Throttle invariant for a pure-`f` run with current cooldown deadline
`D`: either `f` is a member and exactly the removal timer (due `D`) is
pending, or `f` is free, no timer is pending, and the deadline has passed. -/
def TInv (f : FuncId) (D : Nat) (s : Sys) : Prop :=
  (s.throttleCalls f = true ∧
    (∃ tid, s.pending = [{ id := tid, due := D, action := .throttleFire f }]) ∧
    s.now ≤ D) ∨
  (s.throttleCalls f = false ∧ s.pending = [] ∧ D ≤ s.now)

/-- Each deduplication call arrives strictly inside the window of the
previous one; the pair carries the previous call's (time, effective
interval). -/
def spacedCalls (dflt : Nat) : (Nat × Nat) → List (Nat × Option TimedFunctionConfig) → Bool
  | _, [] => true
  | (tp, Ip), (t, c) :: rest =>
    decide (t < tp + Ip) && spacedCalls dflt (t, effInterval c dflt) rest

/-- (time, effective interval) of the last call of a burst, starting from
the pair for the call already performed. -/
def lastCall (dflt : Nat) : (Nat × Nat) → List (Nat × Option TimedFunctionConfig) → Nat × Nat
  | p, [] => p
  | _, (t, c) :: rest => lastCall dflt (t, effInterval c dflt) rest

/-- Deduplication invariant for a pure-`f` duplicate burst: one group (heap
id `cid`, representative arguments `a`, count `n`), whose timer is the only
pending timer, due at `t + I` for the latest call `(t, I)`; nothing invoked
yet. -/
def DDPending (f : FuncId) (cid : Nat) (a : List JsVal) (n t I : Nat) (s : Sys) : Prop :=
  ∃ tid,
    s.dedupCalls f = some [cid] ∧
    s.dedupHeap cid = some { args := a, timeout := some tid, count := n } ∧
    s.pending = [{ id := tid, due := t + I, action := .dedupFire f cid a }] ∧
    s.trace = [] ∧
    s.now ≤ t + I

/-- A configuration object shaped the way the specification describes the
constructor argument: per-strategy keys `debounce`, `throttle`,
`deduplication` and `limit` (sic — the source reads `limitation`). -/
structure SpecShapedPerformerConfig where
  debounce : Option TimedFunctionConfig
  throttle : Option TimedFunctionConfig
  deduplication : Option TimedFunctionConfig
  limit : Option LimitedFunctionConfig
deriving DecidableEq, Repr

/-- Running the constructor on a JS object with keys
`debounce`/`throttle`/`deduplication`/`limit`: the constructor reads
`config?.limitation?.max`, and such an object has no `limitation` key, so
that read yields `undefined` and falls back to the default `Infinity`. -/
def Performer.initFromSpecShaped (c : SpecShapedPerformerConfig)
    (throwing : FuncId → Bool) : Sys :=
  Performer.init
    (some { debounce := c.debounce, throttle := c.throttle,
            deduplication := c.deduplication, limitation := none }) throwing

/-- The construction-time default configuration of a state, as one tuple. -/
def configOf (s : Sys) : Nat × Nat × Nat × MaxVal :=
  (s.debounceInterval, s.throttleInterval, s.dedupInterval, s.limitMax)

/-! ### Basic list facts -/

lemma append_cons_eq_singleton {α : Type} {l₁ l₂ : List α} {x y : α}
    (h : l₁ ++ x :: l₂ = [y]) : l₁ = [] ∧ x = y ∧ l₂ = [] := by
  cases l₁ with
  | nil => simpa using h
  | cons z zs =>
    exfalso
    have hl := congrArg List.length h
    simp only [List.length_append, List.length_cons, List.length_nil] at hl
    omega

/-! ### The timer queue -/

lemma extractEarliest_eq_none {p : List Timer} : extractEarliest p = none ↔ p = [] := by
  cases p with
  | nil => simp [extractEarliest]
  | cons tm rest =>
    simp only [extractEarliest]
    cases h : extractEarliest rest with
    | none => simp
    | some pr => rcases pr with ⟨tm₁, rest₁⟩; by_cases hlt : tm₁.due < tm.due <;> simp [hlt]

lemma extractEarliest_split {p rest : List Timer} {tm : Timer}
    (h : extractEarliest p = some (tm, rest)) :
    ∃ l₁ l₂, p = l₁ ++ tm :: l₂ ∧ rest = l₁ ++ l₂ := by
  induction p generalizing tm rest with
  | nil => simp [extractEarliest] at h
  | cons x xs ih =>
    cases hx : extractEarliest xs with
    | none =>
      rw [extractEarliest, hx] at h
      simp only [Option.some.injEq, Prod.mk.injEq] at h
      obtain ⟨rfl, rfl⟩ := h
      exact ⟨[], xs, rfl, rfl⟩
    | some pr =>
      obtain ⟨tm₁, rest₁⟩ := pr
      rw [extractEarliest, hx] at h
      by_cases hlt : tm₁.due < x.due
      · simp only [hlt, if_true] at h
        simp only [Option.some.injEq, Prod.mk.injEq] at h
        obtain ⟨rfl, rfl⟩ := h
        obtain ⟨l₁, l₂, hp, hr⟩ := ih hx
        exact ⟨x :: l₁, l₂, by simp [hp], by simp [hr]⟩
      · simp only [hlt, if_false] at h
        simp only [Option.some.injEq, Prod.mk.injEq] at h
        obtain ⟨rfl, rfl⟩ := h
        exact ⟨[], xs, rfl, rfl⟩

lemma extractEarliest_min {p rest : List Timer} {tm : Timer}
    (h : extractEarliest p = some (tm, rest)) :
    ∀ x ∈ p, tm.due ≤ x.due := by
  induction p generalizing tm rest with
  | nil => simp [extractEarliest] at h
  | cons x xs ih =>
    cases hx : extractEarliest xs with
    | none =>
      obtain rfl := extractEarliest_eq_none.mp hx
      rw [extractEarliest, hx] at h
      simp only [Option.some.injEq, Prod.mk.injEq] at h
      obtain ⟨rfl, rfl⟩ := h
      intro y hy
      simp at hy
      simp [hy]
    | some pr =>
      obtain ⟨tm₁, rest₁⟩ := pr
      rw [extractEarliest, hx] at h
      have hmin := ih hx
      by_cases hlt : tm₁.due < x.due
      · simp only [hlt, if_true] at h
        simp only [Option.some.injEq, Prod.mk.injEq] at h
        obtain ⟨rfl, rfl⟩ := h
        intro y hy
        rcases List.mem_cons.mp hy with rfl | hy
        · omega
        · exact hmin y hy
      · simp only [hlt, if_false] at h
        simp only [Option.some.injEq, Prod.mk.injEq] at h
        obtain ⟨rfl, rfl⟩ := h
        intro y hy
        rcases List.mem_cons.mp hy with rfl | hy
        · exact le_rfl
        · have := hmin y hy; omega

lemma pickDue_none {t : Nat} {p : List Timer} (h : pickDue t p = none) :
    ∀ x ∈ p, t < x.due := by
  unfold pickDue at h
  cases hx : extractEarliest p with
  | none => rcases extractEarliest_eq_none.mp hx with rfl; simp
  | some pr =>
    rcases pr with ⟨tm, rest⟩
    rw [hx] at h
    by_cases hd : tm.due ≤ t
    · simp [hd] at h
    · intro x hxm
      have := extractEarliest_min hx x hxm
      omega

lemma pickDue_some {t : Nat} {p rest : List Timer} {tm : Timer}
    (h : pickDue t p = some (tm, rest)) :
    tm.due ≤ t ∧ (∀ x ∈ p, tm.due ≤ x.due) ∧
      ∃ l₁ l₂, p = l₁ ++ tm :: l₂ ∧ rest = l₁ ++ l₂ := by
  unfold pickDue at h
  cases hx : extractEarliest p with
  | none => rw [hx] at h; simp at h
  | some pr =>
    rcases pr with ⟨tm₁, rest₁⟩
    rw [hx] at h
    by_cases hd : tm₁.due ≤ t
    · simp only [hd, if_true, Option.some.injEq, Prod.mk.injEq] at h
      rcases h with ⟨rfl, rfl⟩
      exact ⟨hd, extractEarliest_min hx, extractEarliest_split hx⟩
    · simp [hd] at h

/-! ### Timer-callback frame facts -/

lemma runTimerAction_pending (s : Sys) (a : TimerAction) :
    (runTimerAction s a).pending = s.pending := by
  cases a <;> rfl

lemma runTimerAction_now (s : Sys) (a : TimerAction) :
    (runTimerAction s a).now = s.now := by
  cases a <;> rfl

lemma runTimerAction_nextTimerId (s : Sys) (a : TimerAction) :
    (runTimerAction s a).nextTimerId = s.nextTimerId := by
  cases a <;> rfl

lemma runTimerAction_nextCallId (s : Sys) (a : TimerAction) :
    (runTimerAction s a).nextCallId = s.nextCallId := by
  cases a <;> rfl

lemma runTimerAction_throwing (s : Sys) (a : TimerAction) :
    (runTimerAction s a).throwing = s.throwing := by
  cases a <;> rfl

lemma runTimerAction_limitCalls (s : Sys) (a : TimerAction) :
    (runTimerAction s a).limitCalls = s.limitCalls := by
  cases a <;> rfl

lemma runTimerAction_dedupHeap (s : Sys) (a : TimerAction) :
    (runTimerAction s a).dedupHeap = s.dedupHeap := by
  cases a <;> rfl

lemma runTimerAction_configOf (s : Sys) (a : TimerAction) :
    configOf (runTimerAction s a) = configOf s := by
  cases a <;> rfl

/-! ### Advancing the clock -/

lemma advanceLoop_now (fuel : Nat) : ∀ (t : Nat) (s : Sys),
    (advanceLoop fuel t s).now = max s.now t := by
  induction fuel with
  | zero => intro t s; rfl
  | succ fuel ih =>
    intro t s
    rw [advanceLoop]
    cases hp : pickDue t s.pending with
    | none => rfl
    | some pr =>
      obtain ⟨tm, rest⟩ := pr
      have hdue := (pickDue_some hp).1
      rw [ih]
      rw [runTimerAction_now]
      simp only
      omega

lemma advanceLoop_nextTimerId (fuel : Nat) : ∀ (t : Nat) (s : Sys),
    (advanceLoop fuel t s).nextTimerId = s.nextTimerId := by
  induction fuel with
  | zero => intro t s; rfl
  | succ fuel ih =>
    intro t s
    rw [advanceLoop]
    cases hp : pickDue t s.pending with
    | none => rfl
    | some pr =>
      obtain ⟨tm, rest⟩ := pr
      rw [ih, runTimerAction_nextTimerId]

lemma advanceLoop_nextCallId (fuel : Nat) : ∀ (t : Nat) (s : Sys),
    (advanceLoop fuel t s).nextCallId = s.nextCallId := by
  induction fuel with
  | zero => intro t s; rfl
  | succ fuel ih =>
    intro t s
    rw [advanceLoop]
    cases hp : pickDue t s.pending with
    | none => rfl
    | some pr =>
      obtain ⟨tm, rest⟩ := pr
      rw [ih, runTimerAction_nextCallId]

lemma advanceLoop_throwing (fuel : Nat) : ∀ (t : Nat) (s : Sys),
    (advanceLoop fuel t s).throwing = s.throwing := by
  induction fuel with
  | zero => intro t s; rfl
  | succ fuel ih =>
    intro t s
    rw [advanceLoop]
    cases hp : pickDue t s.pending with
    | none => rfl
    | some pr =>
      obtain ⟨tm, rest⟩ := pr
      rw [ih, runTimerAction_throwing]

lemma advanceLoop_limitCalls (fuel : Nat) : ∀ (t : Nat) (s : Sys),
    (advanceLoop fuel t s).limitCalls = s.limitCalls := by
  induction fuel with
  | zero => intro t s; rfl
  | succ fuel ih =>
    intro t s
    rw [advanceLoop]
    cases hp : pickDue t s.pending with
    | none => rfl
    | some pr =>
      obtain ⟨tm, rest⟩ := pr
      rw [ih, runTimerAction_limitCalls]

lemma advanceLoop_configOf (fuel : Nat) : ∀ (t : Nat) (s : Sys),
    configOf (advanceLoop fuel t s) = configOf s := by
  induction fuel with
  | zero => intro t s; rfl
  | succ fuel ih =>
    intro t s
    rw [advanceLoop]
    cases hp : pickDue t s.pending with
    | none => rfl
    | some pr =>
      obtain ⟨tm, rest⟩ := pr
      rw [ih, runTimerAction_configOf]
      rfl

lemma advanceLoop_congr : ∀ (fuel fuel' t : Nat) (s : Sys),
    s.pending.length ≤ fuel → s.pending.length ≤ fuel' →
    advanceLoop fuel t s = advanceLoop fuel' t s := by
  intro fuel
  induction fuel with
  | zero =>
    intro fuel' t s h h'
    have : s.pending = [] := List.length_eq_zero.mp (Nat.le_zero.mp h)
    cases fuel' with
    | zero => rfl
    | succ fuel' =>
      rw [advanceLoop, advanceLoop]
      have : pickDue t s.pending = none := by
        unfold pickDue
        rw [extractEarliest_eq_none.mpr this]

      rw [this]
  | succ fuel ih =>
    intro fuel' t s h h'
    cases hp : pickDue t s.pending with
    | none =>
      cases fuel' with
      | zero =>
        have : s.pending = [] := List.length_eq_zero.mp (Nat.le_zero.mp h')
        rw [advanceLoop, advanceLoop, hp]
      | succ fuel' => rw [advanceLoop, advanceLoop, hp]
    | some pr =>
      obtain ⟨tm, rest⟩ := pr
      obtain ⟨l₁, l₂, hsplit, hrest⟩ := (pickDue_some hp).2.2
      have hlen : rest.length + 1 = s.pending.length := by
        rw [hsplit, hrest]
        simp only [List.length_append, List.length_cons]
        omega
      cases fuel' with
      | zero =>
        exfalso
        have := Nat.le_zero.mp h'
        omega
      | succ fuel' =>
        rw [advanceLoop, advanceLoop, hp]
        apply ih
        · rw [runTimerAction_pending]
          show rest.length ≤ fuel
          omega
        · rw [runTimerAction_pending]
          show rest.length ≤ fuel'
          omega

/-- One-step unfolding of `advanceTo`: fire the earliest due timer, or stop
and set the clock. -/
lemma advanceTo_eq (t : Nat) (s : Sys) :
    advanceTo t s =
      match pickDue t s.pending with
      | none => { s with now := max s.now t }
      | some (tm, rest) =>
          advanceTo t (runTimerAction { s with pending := rest, now := max s.now tm.due } tm.action) := by
  unfold advanceTo
  cases hp : pickDue t s.pending with
  | none =>
    cases hl : s.pending.length with
    | zero => rw [advanceLoop]
    | succ n => rw [advanceLoop, hp]
  | some pr =>
    obtain ⟨tm, rest⟩ := pr
    obtain ⟨l₁, l₂, hsplit, hrest⟩ := (pickDue_some hp).2.2
    have hlen : rest.length + 1 = s.pending.length := by
      rw [hsplit, hrest]
      simp only [List.length_append, List.length_cons]
      omega
    cases hl : s.pending.length with
    | zero => omega
    | succ n =>
      rw [advanceLoop, hp]
      refine advanceLoop_congr _ _ _ _ ?_ le_rfl
      rw [runTimerAction_pending]
      show rest.length ≤ n
      omega

lemma advanceTo_now (t : Nat) (s : Sys) : (advanceTo t s).now = max s.now t :=
  advanceLoop_now _ t s

lemma advanceTo_nextTimerId (t : Nat) (s : Sys) :
    (advanceTo t s).nextTimerId = s.nextTimerId :=
  advanceLoop_nextTimerId _ t s

lemma advanceTo_nextCallId (t : Nat) (s : Sys) :
    (advanceTo t s).nextCallId = s.nextCallId :=
  advanceLoop_nextCallId _ t s

lemma advanceTo_throwing (t : Nat) (s : Sys) :
    (advanceTo t s).throwing = s.throwing :=
  advanceLoop_throwing _ t s

lemma advanceTo_limitCalls (t : Nat) (s : Sys) :
    (advanceTo t s).limitCalls = s.limitCalls :=
  advanceLoop_limitCalls _ t s

lemma advanceTo_configOf (t : Nat) (s : Sys) :
    configOf (advanceTo t s) = configOf s :=
  advanceLoop_configOf _ t s

/-- When no pending timer is due by `t`, advancing only moves the clock. -/
lemma advanceTo_not_due {t : Nat} {s : Sys} (h : ∀ tm ∈ s.pending, t < tm.due) :
    advanceTo t s = { s with now := max s.now t } := by
  rw [advanceTo_eq]
  cases hp : pickDue t s.pending with
  | none => rfl
  | some pr =>
    obtain ⟨tm, rest⟩ := pr
    have h₁ := (pickDue_some hp).1
    have h₂ : tm ∈ s.pending := by
      obtain ⟨l₁, l₂, hsplit, _⟩ := (pickDue_some hp).2.2
      rw [hsplit]
      simp
    have := h tm h₂
    omega

/-! ### Normal forms of the four operations -/

lemma findMatch_heap_congr {s s' : Sys} (h : s.dedupHeap = s'.dedupHeap)
    (ids : List Nat) (a : List JsVal) : findMatch s ids a = findMatch s' ids a := by
  unfold findMatch
  rw [h]

lemma findMatch_heap_some {s : Sys} {ids : List Nat} {a : List JsVal} {cid : Nat}
    (h : findMatch s ids a = some cid) :
    ∃ co, s.dedupHeap cid = some co ∧ isDeepEqual co.args a = true := by
  unfold findMatch at h
  have hp := List.find?_some h
  cases hco : s.dedupHeap cid with
  | none => rw [hco] at hp; simp at hp
  | some co => rw [hco] at hp; exact ⟨co, rfl, hp⟩

lemma debounce_eq (c : Option TimedFunctionConfig) (f : FuncId) (a : List JsVal) (s : Sys) :
    Performer.debounce c f a s =
      { s with
          pending :=
            (match ((s.debounceCalls f).getD { timeout := none }).timeout with
             | none => s.pending
             | some tid => s.pending.filter (fun tm => tm.id != tid)) ++
            [{ id := s.nextTimerId, due := s.now + effInterval c s.debounceInterval,
               action := .debounceFire f a }],
          nextTimerId := s.nextTimerId + 1,
          debounceCalls :=
            Function.update s.debounceCalls f (some { timeout := some s.nextTimerId }) } := by
  simp only [Performer.debounce]
  cases h : ((s.debounceCalls f).getD { timeout := none }).timeout with
  | none => simp [setTimer, clearTimer, Function.update_idem]
  | some tid => simp [setTimer, clearTimer, Function.update_idem]

lemma throttle_eq_member {f : FuncId} {s : Sys} (c : Option TimedFunctionConfig)
    (a : List JsVal) (h : s.throttleCalls f = true) :
    Performer.throttle c f a s = s := by
  simp [Performer.throttle, h]

lemma throttle_eq_throwing {f : FuncId} {s : Sys} (c : Option TimedFunctionConfig)
    (a : List JsVal) (h : s.throttleCalls f = false) (ht : s.throwing f = true) :
    Performer.throttle c f a s =
      { s with trace := s.trace ++ [{ time := s.now, func := f, args := a }] } := by
  simp [Performer.throttle, h, ht, invoke]

lemma throttle_eq_run {f : FuncId} {s : Sys} (c : Option TimedFunctionConfig)
    (a : List JsVal) (h : s.throttleCalls f = false) (ht : s.throwing f = false) :
    Performer.throttle c f a s =
      { s with
          trace := s.trace ++ [{ time := s.now, func := f, args := a }],
          throttleCalls := Function.update s.throttleCalls f true,
          pending := s.pending ++
            [{ id := s.nextTimerId, due := s.now + effInterval c s.throttleInterval,
               action := .throttleFire f }],
          nextTimerId := s.nextTimerId + 1 } := by
  simp [Performer.throttle, h, ht, invoke, setTimer]

lemma dedup_eq_new (c : Option TimedFunctionConfig) (f : FuncId) (a : List JsVal) (s : Sys)
    (h : findMatch s ((s.dedupCalls f).getD []) a = none) :
    Performer.deduplicate c f a s =
      { s with
          dedupCalls :=
            Function.update s.dedupCalls f (some (((s.dedupCalls f).getD []) ++ [s.nextCallId])),
          dedupHeap := Function.update s.dedupHeap s.nextCallId
            (some { args := a, timeout := some s.nextTimerId, count := 1 }),
          nextCallId := s.nextCallId + 1,
          pending := s.pending ++
            [{ id := s.nextTimerId, due := s.now + effInterval c s.dedupInterval,
               action := .dedupFire f s.nextCallId a }],
          nextTimerId := s.nextTimerId + 1 } := by
  have hm : findMatch
      { s with dedupCalls := Function.update s.dedupCalls f (some ((s.dedupCalls f).getD [])) }
      ((s.dedupCalls f).getD []) a = none := h
  simp only [Performer.deduplicate]
  rw [hm]
  simp [setTimer, Function.update_idem]

lemma dedup_eq_match (c : Option TimedFunctionConfig) (f : FuncId) (a : List JsVal) (s : Sys)
    (cid : Nat) (co : DeduplicatedFunctionCall)
    (h : findMatch s ((s.dedupCalls f).getD []) a = some cid)
    (hco : s.dedupHeap cid = some co) :
    Performer.deduplicate c f a s =
      { s with
          dedupCalls := Function.update s.dedupCalls f (some ((s.dedupCalls f).getD [])),
          dedupHeap := Function.update s.dedupHeap cid
            (some { args := co.args, timeout := some s.nextTimerId, count := co.count + 1 }),
          pending :=
            (match co.timeout with
             | none => s.pending
             | some tid => s.pending.filter (fun tm => tm.id != tid)) ++
            [{ id := s.nextTimerId, due := s.now + effInterval c s.dedupInterval,
               action := .dedupFire f cid a }],
          nextTimerId := s.nextTimerId + 1 } := by
  have hm : findMatch
      { s with dedupCalls := Function.update s.dedupCalls f (some ((s.dedupCalls f).getD [])) }
      ((s.dedupCalls f).getD []) a = some cid := h
  have hco' :
      ({ s with
           dedupCalls := Function.update s.dedupCalls f (some ((s.dedupCalls f).getD [])) } :
        Sys).dedupHeap cid = some co := hco
  simp only [Performer.deduplicate]
  rw [hm]
  dsimp only
  rw [hco']
  dsimp only
  cases hti : co.timeout with
  | none => simp [setTimer, clearTimer, Function.update_idem]
  | some tid => simp [setTimer, clearTimer, Function.update_idem]

lemma limit_eq_invoke {c : Option LimitedFunctionConfig} {f : FuncId} {s : Sys}
    (a : List JsVal)
    (h : MaxVal.ltNat ((s.limitCalls f).getD 0) (effMax c s.limitMax) = true) :
    Performer.limit c f a s =
      { s with
          limitCalls := Function.update s.limitCalls f (some ((s.limitCalls f).getD 0 + 1)),
          trace := s.trace ++ [{ time := s.now, func := f, args := a }] } := by
  simp [Performer.limit, h, invoke]

lemma limit_eq_drop {c : Option LimitedFunctionConfig} {f : FuncId} {s : Sys}
    (a : List JsVal)
    (h : MaxVal.ltNat ((s.limitCalls f).getD 0) (effMax c s.limitMax) = false) :
    Performer.limit c f a s =
      { s with
          limitCalls := Function.update s.limitCalls f (some ((s.limitCalls f).getD 0 + 1)) } := by
  simp [Performer.limit, h]

lemma dedup_eq_dangling (c : Option TimedFunctionConfig) (f : FuncId) (a : List JsVal)
    (s : Sys) (cid : Nat)
    (h : findMatch s ((s.dedupCalls f).getD []) a = some cid)
    (hco : s.dedupHeap cid = none) :
    Performer.deduplicate c f a s =
      { s with dedupCalls := Function.update s.dedupCalls f (some ((s.dedupCalls f).getD [])) } := by
  have hm : findMatch
      { s with dedupCalls := Function.update s.dedupCalls f (some ((s.dedupCalls f).getD [])) }
      ((s.dedupCalls f).getD []) a = some cid := h
  have hco' :
      ({ s with
           dedupCalls := Function.update s.dedupCalls f (some ((s.dedupCalls f).getD [])) } :
        Sys).dedupHeap cid = none := hco
  simp only [Performer.deduplicate]
  rw [hm]
  dsimp only
  rw [hco']

/-! ### Per-operation frame bundles -/

lemma debounce_frame (c : Option TimedFunctionConfig) (f : FuncId) (a : List JsVal) (s : Sys) :
    (Performer.debounce c f a s).now = s.now ∧
    (Performer.debounce c f a s).throwing = s.throwing ∧
    (Performer.debounce c f a s).trace = s.trace ∧
    (Performer.debounce c f a s).throttleCalls = s.throttleCalls ∧
    (Performer.debounce c f a s).dedupCalls = s.dedupCalls ∧
    (Performer.debounce c f a s).dedupHeap = s.dedupHeap ∧
    (Performer.debounce c f a s).limitCalls = s.limitCalls ∧
    (Performer.debounce c f a s).nextCallId = s.nextCallId ∧
    configOf (Performer.debounce c f a s) = configOf s ∧
    (Performer.debounce c f a s).nextTimerId = s.nextTimerId + 1 := by
  rw [debounce_eq]
  exact ⟨rfl, rfl, rfl, rfl, rfl, rfl, rfl, rfl, rfl, rfl⟩

lemma throttle_frame (c : Option TimedFunctionConfig) (f : FuncId) (a : List JsVal) (s : Sys) :
    (Performer.throttle c f a s).now = s.now ∧
    (Performer.throttle c f a s).throwing = s.throwing ∧
    (Performer.throttle c f a s).debounceCalls = s.debounceCalls ∧
    (Performer.throttle c f a s).dedupCalls = s.dedupCalls ∧
    (Performer.throttle c f a s).dedupHeap = s.dedupHeap ∧
    (Performer.throttle c f a s).limitCalls = s.limitCalls ∧
    (Performer.throttle c f a s).nextCallId = s.nextCallId ∧
    configOf (Performer.throttle c f a s) = configOf s ∧
    s.nextTimerId ≤ (Performer.throttle c f a s).nextTimerId := by
  by_cases h : s.throttleCalls f = true
  · rw [throttle_eq_member c a h]
    exact ⟨rfl, rfl, rfl, rfl, rfl, rfl, rfl, rfl, le_rfl⟩
  · have h' : s.throttleCalls f = false := by simpa using h
    by_cases ht : s.throwing f = true
    · rw [throttle_eq_throwing c a h' ht]
      exact ⟨rfl, rfl, rfl, rfl, rfl, rfl, rfl, rfl, le_rfl⟩
    · have ht' : s.throwing f = false := by simpa using ht
      rw [throttle_eq_run c a h' ht']
      exact ⟨rfl, rfl, rfl, rfl, rfl, rfl, rfl, rfl, Nat.le_succ _⟩

lemma dedup_frame (c : Option TimedFunctionConfig) (f : FuncId) (a : List JsVal) (s : Sys) :
    (Performer.deduplicate c f a s).now = s.now ∧
    (Performer.deduplicate c f a s).throwing = s.throwing ∧
    (Performer.deduplicate c f a s).trace = s.trace ∧
    (Performer.deduplicate c f a s).debounceCalls = s.debounceCalls ∧
    (Performer.deduplicate c f a s).throttleCalls = s.throttleCalls ∧
    (Performer.deduplicate c f a s).limitCalls = s.limitCalls ∧
    configOf (Performer.deduplicate c f a s) = configOf s ∧
    s.nextTimerId ≤ (Performer.deduplicate c f a s).nextTimerId ∧
    s.nextCallId ≤ (Performer.deduplicate c f a s).nextCallId := by
  cases hm : findMatch s ((s.dedupCalls f).getD []) a with
  | none =>
    rw [dedup_eq_new c f a s hm]
    exact ⟨rfl, rfl, rfl, rfl, rfl, rfl, rfl, Nat.le_succ _, Nat.le_succ _⟩
  | some cid =>
    cases hco : s.dedupHeap cid with
    | none =>
      rw [dedup_eq_dangling c f a s cid hm hco]
      exact ⟨rfl, rfl, rfl, rfl, rfl, rfl, rfl, le_rfl, le_rfl⟩
    | some co =>
      rw [dedup_eq_match c f a s cid co hm hco]
      exact ⟨rfl, rfl, rfl, rfl, rfl, rfl, rfl, Nat.le_succ _, le_rfl⟩

lemma limit_frame (c : Option LimitedFunctionConfig) (f : FuncId) (a : List JsVal) (s : Sys) :
    (Performer.limit c f a s).now = s.now ∧
    (Performer.limit c f a s).throwing = s.throwing ∧
    (Performer.limit c f a s).pending = s.pending ∧
    (Performer.limit c f a s).debounceCalls = s.debounceCalls ∧
    (Performer.limit c f a s).throttleCalls = s.throttleCalls ∧
    (Performer.limit c f a s).dedupCalls = s.dedupCalls ∧
    (Performer.limit c f a s).dedupHeap = s.dedupHeap ∧
    (Performer.limit c f a s).nextCallId = s.nextCallId ∧
    (Performer.limit c f a s).nextTimerId = s.nextTimerId ∧
    configOf (Performer.limit c f a s) = configOf s := by
  cases hb : MaxVal.ltNat ((s.limitCalls f).getD 0) (effMax c s.limitMax) with
  | true =>
    rw [limit_eq_invoke a hb]
    exact ⟨rfl, rfl, rfl, rfl, rfl, rfl, rfl, rfl, rfl, rfl⟩
  | false =>
    rw [limit_eq_drop a hb]
    exact ⟨rfl, rfl, rfl, rfl, rfl, rfl, rfl, rfl, rfl, rfl⟩

/-! ### Claims -/

/-- C10: a configure override resolves field-wise: every strategy reads the
override as `config?.field ?? default`, so an override value omitting the
`interval` (respectively `max`) field keeps the construction-time default,
and `configure({})` behaves identically to the plain invocation. -/
theorem override_resolves_fieldwise :
    (∀ f a s, configureWith Performer.debounce { interval := none } f a s
        = deconfigure Performer.debounce f a s) ∧
    (∀ f a s, configureWith Performer.throttle { interval := none } f a s
        = deconfigure Performer.throttle f a s) ∧
    (∀ f a s, configureWith Performer.deduplicate { interval := none } f a s
        = deconfigure Performer.deduplicate f a s) ∧
    (∀ f a s, configureWith Performer.limit { max := none } f a s
        = deconfigure Performer.limit f a s) ∧
    (∀ d : Nat, effInterval (some { interval := none }) d = d) ∧
    (∀ m : MaxVal, effMax (some { max := none }) m = m) :=
  ⟨fun _ _ _ => rfl, fun _ _ _ => rfl, fun _ _ _ => rfl, fun _ _ _ => rfl,
   fun _ => rfl, fun _ => rfl⟩

/-- C8: in the debounce and deduplication timer callbacks the registry entry
is deleted strictly before the target function is invoked (the callback is
exactly `invoke` applied to the already-deleted state), so even when the
target throws the registry holds no entry for the call afterwards and no new
timer is scheduled. -/
theorem registry_deleted_before_invoke :
    (∀ s f args, runTimerAction s (.debounceFire f args)
        = invoke { s with debounceCalls := Function.update s.debounceCalls f none } f args) ∧
    (∀ s f cid args, runTimerAction s (.dedupFire f cid args)
        = invoke { s with dedupCalls := Function.update s.dedupCalls f none } f
            (JsVal.num (heapCount s cid : Int) :: args)) ∧
    (∀ s f args, s.throwing f = true →
        (runTimerAction s (.debounceFire f args)).debounceCalls f = none ∧
        (runTimerAction s (.debounceFire f args)).pending = s.pending) ∧
    (∀ s f cid args, s.throwing f = true →
        (runTimerAction s (.dedupFire f cid args)).dedupCalls f = none ∧
        (runTimerAction s (.dedupFire f cid args)).pending = s.pending) := by
  refine ⟨fun s f args => rfl, fun s f cid args => rfl, fun s f args _ => ⟨?_, rfl⟩,
    fun s f cid args _ => ⟨?_, rfl⟩⟩
  · simp [runTimerAction, invoke, Function.update_same]
  · simp [runTimerAction, invoke, Function.update_same]

theorem registry_deleted_before_invoke_witness :
    ((Performer.init none (fun _ => true)).throwing 0 = true) ∧
    ((runTimerAction (Performer.init none (fun _ => true)) (.debounceFire 0 [])).debounceCalls 0
        = none ∧
      (runTimerAction (Performer.init none (fun _ => true)) (.debounceFire 0 [])).pending
        = (Performer.init none (fun _ => true)).pending) ∧
    ((runTimerAction (Performer.init none (fun _ => true)) (.dedupFire 0 5 [])).dedupCalls 0
        = none ∧
      (runTimerAction (Performer.init none (fun _ => true)) (.dedupFire 0 5 [])).pending
        = (Performer.init none (fun _ => true)).pending) :=
  ⟨rfl,
   registry_deleted_before_invoke.2.2.1 (Performer.init none (fun _ => true)) 0 [] rfl,
   registry_deleted_before_invoke.2.2.2 (Performer.init none (fun _ => true)) 0 5 [] rfl⟩

/-- C9: when the target function throws during an admitted throttle call,
the function is not added to the membership set and no cooldown timer is
scheduled, so the immediately following throttle call is admitted again. -/
theorem throttle_throwing_not_blocked (cfg cfg' : Option TimedFunctionConfig) (s : Sys)
    (f : FuncId) (a a' : List JsVal)
    (hthrow : s.throwing f = true) (hfree : s.throttleCalls f = false) :
    (Performer.throttle cfg f a s).trace
      = s.trace ++ [{ time := s.now, func := f, args := a }] ∧
    (Performer.throttle cfg f a s).throttleCalls f = false ∧
    (Performer.throttle cfg f a s).pending = s.pending ∧
    (Performer.throttle cfg' f a' (Performer.throttle cfg f a s)).trace
      = s.trace ++ [{ time := s.now, func := f, args := a },
                    { time := s.now, func := f, args := a' }] := by
  have h1 := throttle_eq_throwing cfg a hfree hthrow
  refine ⟨by rw [h1], by rw [h1]; exact hfree, by rw [h1], ?_⟩
  rw [h1]
  have h2 := throttle_eq_throwing (s := { s with
    trace := s.trace ++ [{ time := s.now, func := f, args := a }] }) cfg' a' hfree hthrow
  rw [h2]
  simp

theorem throttle_throwing_not_blocked_witness :
    ((Performer.init none (fun _ => true)).throwing 0 = true) ∧
    ((Performer.init none (fun _ => true)).throttleCalls 0 = false) ∧
    (Performer.throttle none 0 [.num 2]
        (Performer.throttle none 0 [.num 1] (Performer.init none (fun _ => true)))).trace
      = [{ time := 0, func := 0, args := [.num 1] }, { time := 0, func := 0, args := [.num 2] }] :=
  ⟨rfl, rfl, by
    have h := throttle_throwing_not_blocked none none (Performer.init none (fun _ => true))
      0 [.num 1] [.num 2] rfl rfl
    simpa using h.2.2.2⟩

/-! ### Limit -/

lemma limitExpect_inf : ∀ (c : Nat) (argss : List (List JsVal)),
    limitExpect .inf c argss = argss := by
  intro c argss
  induction argss generalizing c with
  | nil => rfl
  | cons a rest ih => simp [limitExpect, MaxVal.ltNat, ih]

lemma limitExpect_fin (k : Nat) : ∀ (argss : List (List JsVal)) (c : Nat),
    limitExpect (.fin k) c argss = argss.take (k - c) := by
  intro argss
  induction argss with
  | nil => intro c; simp [limitExpect]
  | cons a rest ih =>
    intro c
    by_cases hc : c < k
    · have hb : MaxVal.ltNat c (.fin k) = true := by simp [MaxVal.ltNat, hc]
      have hk : k - c = (k - (c + 1)) + 1 := by omega
      simp [limitExpect, hb, ih, hk]
    · have hb : MaxVal.ltNat c (.fin k) = false := by simp [MaxVal.ltNat]; omega
      have hk : k - c = 0 := by omega
      have hk' : k - (c + 1) = 0 := by omega
      simp [limitExpect, hb, ih, hk, hk']

lemma runLimit_spec (cfg : Option LimitedFunctionConfig) (f : FuncId) :
    ∀ (argss : List (List JsVal)) (s : Sys),
      (runLimitCalls cfg f argss s).trace
        = s.trace ++ (limitExpect (effMax cfg s.limitMax) ((s.limitCalls f).getD 0) argss).map
            (fun a => { time := s.now, func := f, args := a }) ∧
      ((runLimitCalls cfg f argss s).limitCalls f).getD 0
        = (s.limitCalls f).getD 0 + argss.length ∧
      (argss = [] ∨ (runLimitCalls cfg f argss s).limitCalls f
        = some ((s.limitCalls f).getD 0 + argss.length)) ∧
      (runLimitCalls cfg f argss s).now = s.now ∧
      (runLimitCalls cfg f argss s).limitMax = s.limitMax := by
  intro argss
  induction argss with
  | nil =>
    intro s
    exact ⟨by simp [runLimitCalls, limitExpect], by simp [runLimitCalls],
      Or.inl rfl, rfl, rfl⟩
  | cons a rest ih =>
    intro s
    have hstep : runLimitCalls cfg f (a :: rest) s
        = runLimitCalls cfg f rest (Performer.limit cfg f a s) := rfl
    cases hb : MaxVal.ltNat ((s.limitCalls f).getD 0) (effMax cfg s.limitMax) with
    | true =>
      have he := limit_eq_invoke (c := cfg) (f := f) (s := s) a hb
      obtain ⟨iht, ihc, iho, ihn, ihm⟩ := ih (Performer.limit cfg f a s)
      have h₁ : (Performer.limit cfg f a s).limitCalls f
          = some ((s.limitCalls f).getD 0 + 1) := by
        rw [he]; simp [Function.update_same]
      have h₂ : (Performer.limit cfg f a s).trace
          = s.trace ++ [{ time := s.now, func := f, args := a }] := by rw [he]
      have h₃ : (Performer.limit cfg f a s).now = s.now := by rw [he]
      have h₄ : (Performer.limit cfg f a s).limitMax = s.limitMax := by rw [he]
      rw [hstep]
      refine ⟨?_, ?_, ?_, ?_, ?_⟩
      · rw [iht, h₂, h₃, h₄, h₁]
        simp [limitExpect, hb]
      · rw [ihc, h₁]
        simp only [Option.getD_some, List.length_cons]
        omega
      · right
        rcases iho with hrest | hsome
        · subst hrest
          have : runLimitCalls cfg f ([] : List (List JsVal)) (Performer.limit cfg f a s)
              = Performer.limit cfg f a s := rfl
          rw [this, h₁]
          rfl
        · rw [hsome, h₁]
          have : (s.limitCalls f).getD 0 + 1 + rest.length
              = (s.limitCalls f).getD 0 + (rest.length + 1) := by omega
          simp [this]
      · rw [ihn, h₃]
      · rw [ihm, h₄]
    | false =>
      have he := limit_eq_drop (c := cfg) (f := f) (s := s) a hb
      obtain ⟨iht, ihc, iho, ihn, ihm⟩ := ih (Performer.limit cfg f a s)
      have h₁ : (Performer.limit cfg f a s).limitCalls f
          = some ((s.limitCalls f).getD 0 + 1) := by
        rw [he]; simp [Function.update_same]
      have h₂ : (Performer.limit cfg f a s).trace = s.trace := by rw [he]
      have h₃ : (Performer.limit cfg f a s).now = s.now := by rw [he]
      have h₄ : (Performer.limit cfg f a s).limitMax = s.limitMax := by rw [he]
      rw [hstep]
      refine ⟨?_, ?_, ?_, ?_, ?_⟩
      · rw [iht, h₂, h₃, h₄, h₁]
        simp [limitExpect, hb]
      · rw [ihc, h₁]
        simp only [Option.getD_some, List.length_cons]
        omega
      · right
        rcases iho with hrest | hsome
        · subst hrest
          have : runLimitCalls cfg f ([] : List (List JsVal)) (Performer.limit cfg f a s)
              = Performer.limit cfg f a s := rfl
          rw [this, h₁]
          rfl
        · rw [hsome, h₁]
          have : (s.limitCalls f).getD 0 + 1 + rest.length
              = (s.limitCalls f).getD 0 + (rest.length + 1) := by omega
          simp [this]
      · rw [ihn, h₃]
      · rw [ihm, h₄]

/-- C5: with effective limit `max`, a sequence of limit calls on `fn` from a
fresh counter invokes exactly the first `max` of them (each with its own
arguments, synchronously at the current time), drops the rest, increments
the counter by exactly one on every call (admitted or not), never resets it
(no strategy operation or timer firing decreases or deletes it), and an
unbounded `max` admits every call. -/
theorem limit_admits_first_max (cfg : Option LimitedFunctionConfig) (f : FuncId)
    (argss : List (List JsVal)) (s : Sys) (hfresh : s.limitCalls f = none) :
    (∀ k, effMax cfg s.limitMax = .fin k →
      (runLimitCalls cfg f argss s).trace
        = s.trace ++ (argss.take k).map (fun a => { time := s.now, func := f, args := a })) ∧
    (effMax cfg s.limitMax = .inf →
      (runLimitCalls cfg f argss s).trace
        = s.trace ++ argss.map (fun a => { time := s.now, func := f, args := a })) ∧
    ((runLimitCalls cfg f argss s).limitCalls f).getD 0 = argss.length ∧
    (∀ (s' : Sys) (a : List JsVal) (c' : Option LimitedFunctionConfig),
      (Performer.limit c' f a s').limitCalls f = some ((s'.limitCalls f).getD 0 + 1)) ∧
    (∀ (s' : Sys) (u : Nat), (advanceTo u s').limitCalls f = s'.limitCalls f) ∧
    (∀ (s' : Sys) (e : Event), (dispatch e s').limitCalls f = s'.limitCalls f ∨
      (dispatch e s').limitCalls f = some ((s'.limitCalls f).getD 0 + 1)) := by
  have hc0 : (s.limitCalls f).getD 0 = 0 := by rw [hfresh]; rfl
  obtain ⟨ht, hcnt, _, _, _⟩ := runLimit_spec cfg f argss s
  have hinc : ∀ (s' : Sys) (a : List JsVal) (c' : Option LimitedFunctionConfig),
      (Performer.limit c' f a s').limitCalls f = some ((s'.limitCalls f).getD 0 + 1) := by
    intro s' a c'
    cases hb : MaxVal.ltNat ((s'.limitCalls f).getD 0) (effMax c' s'.limitMax) with
    | true => rw [limit_eq_invoke a hb]; simp [Function.update_same]
    | false => rw [limit_eq_drop a hb]; simp [Function.update_same]
  refine ⟨?_, ?_, ?_, hinc, ?_, ?_⟩
  · intro k hk
    rw [ht, hc0, hk, limitExpect_fin]
    simp
  · intro hk
    rw [ht, hc0, hk, limitExpect_inf]
  · rw [hcnt, hc0]
    simp
  · intro s' u
    exact congrFun (advanceTo_limitCalls u s') f
  · intro s' e
    cases e with
    | debounce c g a =>
      exact Or.inl (congrFun (debounce_frame c g a s').2.2.2.2.2.2.1 f)
    | throttle c g a =>
      exact Or.inl (congrFun (throttle_frame c g a s').2.2.2.2.2.1 f)
    | dedup c g a =>
      exact Or.inl (congrFun (dedup_frame c g a s').2.2.2.2.2.1 f)
    | limit c g a =>
      by_cases hg : g = f
      · subst hg
        exact Or.inr (hinc s' a c)
      · left
        show (Performer.limit c g a s').limitCalls f = s'.limitCalls f
        cases hb : MaxVal.ltNat ((s'.limitCalls g).getD 0) (effMax c s'.limitMax) with
        | true => rw [limit_eq_invoke a hb]; simp [Function.update_noteq (Ne.symm hg)]
        | false => rw [limit_eq_drop a hb]; simp [Function.update_noteq (Ne.symm hg)]

theorem limit_admits_first_max_witness :
    (Performer.init
        (some { debounce := none, throttle := none, deduplication := none,
                limitation := some { max := some (.fin 2) } }) (fun _ => false)).limitCalls 0
      = none ∧
    (runLimitCalls none 0 [[.num 1], [.num 2], [.num 3]]
        (Performer.init
          (some { debounce := none, throttle := none, deduplication := none,
                  limitation := some { max := some (.fin 2) } }) (fun _ => false))).trace
      = [{ time := 0, func := 0, args := [.num 1] }, { time := 0, func := 0, args := [.num 2] }] ∧
    ((runLimitCalls none 0 [[.num 1], [.num 2], [.num 3]]
        (Performer.init
          (some { debounce := none, throttle := none, deduplication := none,
                  limitation := some { max := some (.fin 2) } }) (fun _ => false))).limitCalls 0).getD 0
      = 3 := by
  have h := limit_admits_first_max none 0 [[.num 1], [.num 2], [.num 3]]
    (Performer.init
      (some { debounce := none, throttle := none, deduplication := none,
              limitation := some { max := some (.fin 2) } }) (fun _ => false)) rfl
  refine ⟨rfl, ?_, h.2.2.1⟩
  have h2 := h.1 2 rfl
  simpa using h2

/-! ### Constructor (C7) -/

/-- C7 counterexample: the constructor does not recognize a `limit` key.  A
configuration object carrying `{ limit: { max: 2 } }` — the key the claim
names — leaves the limitation default at `Infinity`, so a third call on the
same function is still invoked instead of being suppressed after two. -/
theorem constructor_limit_key_not_recognized :
    (Performer.initFromSpecShaped
        { debounce := none, throttle := none, deduplication := none,
          limit := some { max := some (.fin 2) } } (fun _ => false)).limitMax = .inf ∧
    (runLimitCalls none 0 [[.num 1], [.num 2], [.num 3]]
        (Performer.initFromSpecShaped
          { debounce := none, throttle := none, deduplication := none,
            limit := some { max := some (.fin 2) } } (fun _ => false))).trace
      = [{ time := 0, func := 0, args := [.num 1] },
         { time := 0, func := 0, args := [.num 2] },
         { time := 0, func := 0, args := [.num 3] }] := by
  exact ⟨rfl, by decide⟩

/-- C7 amended: the constructor recognizes the keys `debounce.interval`,
`throttle.interval`, `deduplication.interval` and `limitation.max` (not
`limit.max`); every omitted key defaults to interval `0` (respectively the
unbounded `Infinity` for the limitation bound), and a `Performer`
constructed with no argument uses exactly these defaults. -/
theorem constructor_defaults (oc : Option PerformerConfig) (thr : FuncId → Bool) :
    (Performer.init oc thr).debounceInterval
      = ((oc.bind PerformerConfig.debounce).bind TimedFunctionConfig.interval).getD 0 ∧
    (Performer.init oc thr).throttleInterval
      = ((oc.bind PerformerConfig.throttle).bind TimedFunctionConfig.interval).getD 0 ∧
    (Performer.init oc thr).dedupInterval
      = ((oc.bind PerformerConfig.deduplication).bind TimedFunctionConfig.interval).getD 0 ∧
    (Performer.init oc thr).limitMax
      = ((oc.bind PerformerConfig.limitation).bind LimitedFunctionConfig.max).getD .inf ∧
    Performer.init none thr
      = Performer.init
          (some { debounce := none, throttle := none, deduplication := none,
                  limitation := none }) thr ∧
    configOf (Performer.init none thr) = (0, 0, 0, .inf) ∧
    (∀ i j k m, configOf (Performer.init
        (some { debounce := some { interval := some i },
                throttle := some { interval := some j },
                deduplication := some { interval := some k },
                limitation := some { max := some m } }) thr) = (i, j, k, m)) :=
  ⟨rfl, rfl, rfl, rfl, rfl, rfl, fun _ _ _ _ => rfl⟩

/-! ### Configuration isolation (C6) -/

/-- C6: for every strategy, a call through the invoker returned by
`configure(override)` uses the override configuration (the timer it
schedules is due after the override interval; the limit decision uses the
override bound), no strategy call or timer firing ever mutates the
construction-time defaults, and a plain (unconfigured) invocation — before
or after — schedules with exactly the construction-time default interval
(respectively decides with the default bound). -/
theorem configure_isolated :
    (∀ (s : Sys) f a i,
      (configureWith Performer.debounce { interval := some i } f a s).pending.getLast?
        = some { id := s.nextTimerId, due := s.now + i, action := .debounceFire f a }) ∧
    (∀ (s : Sys) f a i, s.throttleCalls f = false → s.throwing f = false →
      (configureWith Performer.throttle { interval := some i } f a s).pending.getLast?
        = some { id := s.nextTimerId, due := s.now + i, action := .throttleFire f }) ∧
    (∀ (s : Sys) f a i, ∃ tm : Timer,
      (configureWith Performer.deduplicate { interval := some i } f a s).pending.getLast?
          = some tm ∧
        tm.due = s.now + i) ∧
    (∀ (s : Sys) f a m,
      (configureWith Performer.limit { max := some m } f a s).trace
        = if MaxVal.ltNat ((s.limitCalls f).getD 0) m
            then s.trace ++ [{ time := s.now, func := f, args := a }] else s.trace) ∧
    (∀ (s : Sys) e, configOf (dispatch e s) = configOf s) ∧
    (∀ (s : Sys) u, configOf (advanceTo u s) = configOf s) ∧
    (∀ (s : Sys) f a,
      (deconfigure Performer.debounce f a s).pending.getLast?
        = some { id := s.nextTimerId, due := s.now + s.debounceInterval,
                 action := .debounceFire f a }) ∧
    (∀ (s : Sys) f a, s.throttleCalls f = false → s.throwing f = false →
      (deconfigure Performer.throttle f a s).pending.getLast?
        = some { id := s.nextTimerId, due := s.now + s.throttleInterval,
                 action := .throttleFire f }) ∧
    (∀ (s : Sys) f a, ∃ tm : Timer,
      (deconfigure Performer.deduplicate f a s).pending.getLast? = some tm ∧
        tm.due = s.now + s.dedupInterval) ∧
    (∀ (s : Sys) f a,
      (deconfigure Performer.limit f a s).trace
        = if MaxVal.ltNat ((s.limitCalls f).getD 0) s.limitMax
            then s.trace ++ [{ time := s.now, func := f, args := a }] else s.trace) := by
  have hdeb : ∀ (c : Option TimedFunctionConfig) (s : Sys) f a,
      (Performer.debounce c f a s).pending.getLast?
        = some { id := s.nextTimerId, due := s.now + effInterval c s.debounceInterval,
                 action := .debounceFire f a } := by
    intro c s f a
    rw [debounce_eq]
    exact List.getLast?_concat _
  have hthr : ∀ (c : Option TimedFunctionConfig) (s : Sys) f a,
      s.throttleCalls f = false → s.throwing f = false →
      (Performer.throttle c f a s).pending.getLast?
        = some { id := s.nextTimerId, due := s.now + effInterval c s.throttleInterval,
                 action := .throttleFire f } := by
    intro c s f a h ht
    rw [throttle_eq_run c a h ht]
    exact List.getLast?_concat _
  have hded : ∀ (c : Option TimedFunctionConfig) (s : Sys) f a, ∃ tm : Timer,
      (Performer.deduplicate c f a s).pending.getLast? = some tm ∧
        tm.due = s.now + effInterval c s.dedupInterval := by
    intro c s f a
    cases hm : findMatch s ((s.dedupCalls f).getD []) a with
    | none =>
      refine ⟨{ id := s.nextTimerId, due := s.now + effInterval c s.dedupInterval,
                action := .dedupFire f s.nextCallId a }, ?_, rfl⟩
      rw [dedup_eq_new c f a s hm]
      exact List.getLast?_concat _
    | some cid =>
      cases hco : s.dedupHeap cid with
      | none =>
        obtain ⟨co, hco', _⟩ := findMatch_heap_some hm
        rw [hco] at hco'
        exact absurd hco' (by simp)
      | some co =>
        refine ⟨{ id := s.nextTimerId, due := s.now + effInterval c s.dedupInterval,
                  action := .dedupFire f cid a }, ?_, rfl⟩
        rw [dedup_eq_match c f a s cid co hm hco]
        exact List.getLast?_concat _
  have hlim : ∀ (c : Option LimitedFunctionConfig) (s : Sys) f a,
      (Performer.limit c f a s).trace
        = if MaxVal.ltNat ((s.limitCalls f).getD 0) (effMax c s.limitMax)
            then s.trace ++ [{ time := s.now, func := f, args := a }] else s.trace := by
    intro c s f a
    cases hb : MaxVal.ltNat ((s.limitCalls f).getD 0) (effMax c s.limitMax) with
    | true => rw [limit_eq_invoke a hb, if_pos rfl]
    | false => rw [limit_eq_drop a hb, if_neg (by simp)]
  refine ⟨fun s f a i => hdeb _ s f a, fun s f a i => hthr _ s f a,
    fun s f a i => hded _ s f a, fun s f a m => hlim _ s f a, ?_, ?_,
    fun s f a => hdeb none s f a, fun s f a => hthr none s f a,
    fun s f a => hded none s f a, fun s f a => hlim none s f a⟩
  · intro s e
    cases e with
    | debounce c g a => exact (debounce_frame c g a s).2.2.2.2.2.2.2.2.1
    | throttle c g a => exact (throttle_frame c g a s).2.2.2.2.2.2.2.1
    | dedup c g a => exact (dedup_frame c g a s).2.2.2.2.2.2.1
    | limit c g a => exact (limit_frame c g a s).2.2.2.2.2.2.2.2.2
  · intro s u
    exact advanceTo_configOf u s

theorem configure_isolated_witness :
    ((Performer.init none (fun _ => false)).throttleCalls 0 = false) ∧
    ((Performer.init none (fun _ => false)).throwing 0 = false) ∧
    (configureWith Performer.throttle { interval := some 5 } 0 []
        (Performer.init none (fun _ => false))).pending.getLast?
      = some { id := 0, due := 5, action := .throttleFire 0 } :=
  ⟨rfl, rfl, configure_isolated.2.1 (Performer.init none (fun _ => false)) 0 [] 5 rfl rfl⟩

/-! ### Deduplication group lifecycle (C2) -/

/-- C2 (code bug): the deduplication timer callback runs
`this._deduplicationContext.calls.delete(func)`, deleting the whole registry
entry for `fn` — every group, not only the fired one.  With interval 100 and
calls `deduplicate(f, 1)` at t=0 and `deduplicate(f, 2)` at t=50, both
groups (heap ids 0 and 1) are in the registry at t=50; when the `[1]`-group
fires at t=100 the registry entry becomes `none` although the `[2]`-group's
timer (id 1, due 150) is still pending, so that group is no longer
observable.  Consequently a duplicate call `deduplicate(f, 2)` at t=120
starts a fresh group instead of merging: `f` is invoked twice for the
argument list `[2]` (counts 1 and 1, at t=150 and t=220) instead of once
with count 2. -/
theorem dedup_fire_deletes_all_groups :
    (runScript [{ t := 0, ev := .dedup none 0 [.num 1] }, { t := 50, ev := .dedup none 0 [.num 2] }]
        (Performer.init
          (some { debounce := none, throttle := none,
                  deduplication := some { interval := some 100 }, limitation := none })
          (fun _ => false))).dedupCalls 0 = some [0, 1] ∧
    (advanceTo 100 (runScript
        [{ t := 0, ev := .dedup none 0 [.num 1] }, { t := 50, ev := .dedup none 0 [.num 2] }]
        (Performer.init
          (some { debounce := none, throttle := none,
                  deduplication := some { interval := some 100 }, limitation := none })
          (fun _ => false)))).dedupCalls 0 = none ∧
    (advanceTo 100 (runScript
        [{ t := 0, ev := .dedup none 0 [.num 1] }, { t := 50, ev := .dedup none 0 [.num 2] }]
        (Performer.init
          (some { debounce := none, throttle := none,
                  deduplication := some { interval := some 100 }, limitation := none })
          (fun _ => false)))).pending
      = [{ id := 1, due := 150, action := .dedupFire 0 1 [.num 2] }] ∧
    (advanceTo 250 (runScript
        [{ t := 0, ev := .dedup none 0 [.num 1] }, { t := 50, ev := .dedup none 0 [.num 2] },
         { t := 120, ev := .dedup none 0 [.num 2] }]
        (Performer.init
          (some { debounce := none, throttle := none,
                  deduplication := some { interval := some 100 }, limitation := none })
          (fun _ => false)))).trace
      = [{ time := 100, func := 0, args := [.num 1, .num 1] },
         { time := 150, func := 0, args := [.num 1, .num 2] },
         { time := 220, func := 0, args := [.num 1, .num 2] }] := by
  exact ⟨by decide, by decide, by decide, by decide⟩

/-! ### Throttle (C4) -/

lemma advanceTo_throttle_fire {t D tid : Nat} {f : FuncId} {s : Sys}
    (hp : s.pending = [{ id := tid, due := D, action := .throttleFire f }])
    (hdue : D ≤ t) (hnow : s.now ≤ D) :
    advanceTo t s
      = { s with
            pending := [],
            throttleCalls := Function.update s.throttleCalls f false,
            now := max D t } := by
  rw [advanceTo_eq]
  have hpick : pickDue t s.pending
      = some ({ id := tid, due := D, action := .throttleFire f }, []) := by
    rw [hp]
    simp [pickDue, extractEarliest, hdue]
  rw [hpick]
  dsimp only
  have hX : runTimerAction { s with pending := ([] : List Timer), now := max s.now D }
        (.throttleFire f)
      = { s with
            pending := [],
            now := max s.now D,
            throttleCalls := Function.update s.throttleCalls f false } := rfl
  rw [hX, advanceTo_not_due (by simp)]
  have h1 : max s.now D = D := by omega
  rw [h1]

lemma advanceTo_dedup_fire {t D tid cid : Nat} {f : FuncId} {a : List JsVal} {s : Sys}
    (hp : s.pending = [{ id := tid, due := D, action := .dedupFire f cid a }])
    (hdue : D ≤ t) (hnow : s.now ≤ D) :
    advanceTo t s
      = { s with
            pending := [],
            dedupCalls := Function.update s.dedupCalls f none,
            trace := s.trace ++
              [{ time := D, func := f, args := .num (heapCount s cid : Int) :: a }],
            now := max D t } := by
  rw [advanceTo_eq]
  have hpick : pickDue t s.pending
      = some ({ id := tid, due := D, action := .dedupFire f cid a }, []) := by
    rw [hp]
    simp [pickDue, extractEarliest, hdue]
  rw [hpick]
  dsimp only
  have hX : runTimerAction { s with pending := ([] : List Timer), now := max s.now D }
        (.dedupFire f cid a)
      = { s with
            pending := [],
            now := max s.now D,
            dedupCalls := Function.update s.dedupCalls f none,
            trace := s.trace ++
              [{ time := max s.now D, func := f,
                 args := .num (heapCount s cid : Int) :: a }] } := rfl
  rw [hX, advanceTo_not_due (by simp)]
  have h1 : max s.now D = D := by omega
  rw [h1]

lemma throttle_run (f : FuncId) :
    ∀ (calls : List (Nat × Option TimedFunctionConfig × List JsVal)) (D : Nat) (s : Sys),
      TInv f D s →
      s.throwing f = false →
      monoFrom s.now (calls.map (fun c => c.1)) = true →
      (runScript (throttleScript f calls) s).trace
        = s.trace ++ throttleExpect f s.throttleInterval D calls := by
  intro calls
  induction calls with
  | nil =>
    intro D s hinv hthr hmono
    simp [throttleScript, runScript, throttleExpect]
  | cons c rest ih =>
    obtain ⟨t, cfg, a⟩ := c
    intro D s hinv hthr hmono
    simp only [List.map_cons, monoFrom, Bool.and_eq_true, decide_eq_true_eq] at hmono
    obtain ⟨hle, hmono'⟩ := hmono
    have hstep : runScript (throttleScript f ((t, cfg, a) :: rest)) s
        = runScript (throttleScript f rest)
            (dispatch (.throttle cfg f a) (advanceTo t s)) := rfl
    rw [hstep]
    rcases hinv with ⟨hmem, ⟨tid, hpend⟩, hnow⟩ | ⟨hmem, hpend, hDnow⟩
    · by_cases hDt : D ≤ t
      · -- the cooldown timer fires before the call is processed: admitted
        have hadv := advanceTo_throttle_fire hpend hDt hnow
        have hmax : max D t = t := by omega
        rw [hmax] at hadv
        set s' : Sys :=
          { s with
              pending := [],
              now := t,
              throttleCalls := Function.update s.throttleCalls f false } with hs'
        rw [hadv]
        have hrun : dispatch (.throttle cfg f a) s' = Performer.throttle cfg f a s' := rfl
        have hmem' : s'.throttleCalls f = false := by
          simp [hs', Function.update_same]
        have hthr' : s'.throwing f = false := hthr
        rw [hrun, throttle_eq_run cfg a hmem' hthr']
        have hinv₂ : TInv f (t + effInterval cfg s.throttleInterval)
            { s' with
                trace := s'.trace ++ [{ time := s'.now, func := f, args := a }],
                throttleCalls := Function.update s'.throttleCalls f true,
                pending := s'.pending ++
                  [{ id := s'.nextTimerId, due := s'.now + effInterval cfg s'.throttleInterval,
                     action := .throttleFire f }],
                nextTimerId := s'.nextTimerId + 1 } := by
          left
          refine ⟨by simp [Function.update_same], ⟨s'.nextTimerId, by simp [hs']⟩, ?_⟩
          simp [hs']
        have ihres := ih (t + effInterval cfg s.throttleInterval) _ hinv₂ hthr' (by simpa [hs'] using hmono')
        rw [ihres]
        rw [throttleExpect]
        simp [hs', hDt]
      · -- still in cooldown: the call is a no-op
        have hadv := advanceTo_not_due (t := t) (s := s) (by
          rw [hpend]
          intro tm htm
          simp at htm
          subst htm
          simp
          omega)
        have hmax : max s.now t = t := by omega
        rw [hmax] at hadv
        rw [hadv]
        set s' : Sys := { s with now := t } with hs'
        have hmem' : s'.throttleCalls f = true := hmem
        have hrun : dispatch (.throttle cfg f a) s' = Performer.throttle cfg f a s' := rfl
        rw [hrun, throttle_eq_member cfg a hmem']
        have hinv₂ : TInv f D s' := by
          left
          exact ⟨hmem, ⟨tid, hpend⟩, by simp [hs']; omega⟩
        have ihres := ih D s' hinv₂ hthr (by simpa [hs'] using hmono')
        rw [ihres]
        rw [throttleExpect]
        simp [hs', hDt]
    · -- free: admitted immediately
      have hadv := advanceTo_not_due (t := t) (s := s) (by rw [hpend]; simp)
      have hmax : max s.now t = t := by omega
      rw [hmax] at hadv
      rw [hadv]
      set s' : Sys := { s with now := t } with hs'
      have hmem' : s'.throttleCalls f = false := hmem
      have hthr' : s'.throwing f = false := hthr
      have hrun : dispatch (.throttle cfg f a) s' = Performer.throttle cfg f a s' := rfl
      rw [hrun, throttle_eq_run cfg a hmem' hthr']
      have hinv₂ : TInv f (t + effInterval cfg s.throttleInterval)
          { s' with
              trace := s'.trace ++ [{ time := s'.now, func := f, args := a }],
              throttleCalls := Function.update s'.throttleCalls f true,
              pending := s'.pending ++
                [{ id := s'.nextTimerId, due := s'.now + effInterval cfg s'.throttleInterval,
                   action := .throttleFire f }],
              nextTimerId := s'.nextTimerId + 1 } := by
        left
        refine ⟨by simp [Function.update_same], ⟨s'.nextTimerId, by simp [hs', hpend]⟩, ?_⟩
        simp [hs']
      have ihres := ih (t + effInterval cfg s.throttleInterval) _ hinv₂ hthr' (by simpa [hs'] using hmono')
      rw [ihres]
      rw [throttleExpect]
      have hDt : D ≤ t := le_trans hDnow hle
      simp [hs', hDt]

/-- C4: a pure throttle call sequence on `fn` behaves exactly like the
specification's cooldown automaton: the first call is invoked synchronously
with its own arguments, every call arriving strictly inside the cooldown
window is dropped (its arguments are discarded, nothing is queued), and the
first call at or after the deadline is admitted again and restarts the
cooldown with its own effective interval. -/
theorem throttle_admits_first_then_drops (pc : Option PerformerConfig) (thr : FuncId → Bool)
    (f : FuncId) (calls : List (Nat × Option TimedFunctionConfig × List JsVal))
    (hthr : thr f = false)
    (hmono : monoFrom 0 (calls.map (fun c => c.1)) = true) :
    (runScript (throttleScript f calls) (Performer.init pc thr)).trace
      = throttleExpect f (Performer.init pc thr).throttleInterval 0 calls := by
  have h := throttle_run f calls 0 (Performer.init pc thr)
    (Or.inr ⟨rfl, rfl, Nat.zero_le _⟩) hthr hmono
  simpa using h

theorem throttle_admits_first_then_drops_witness :
    ((fun _ => false : FuncId → Bool) 0 = false) ∧
    (monoFrom 0 (([(0, none, [JsVal.num 0]), (50, none, [JsVal.num 1]),
        (99, none, [JsVal.num 2]), (101, none, [JsVal.num 3])] :
          List (Nat × Option TimedFunctionConfig × List JsVal)).map (fun c => c.1)) = true) ∧
    (runScript (throttleScript 0 [(0, none, [JsVal.num 0]), (50, none, [JsVal.num 1]),
        (99, none, [JsVal.num 2]), (101, none, [JsVal.num 3])])
        (Performer.init
          (some { debounce := none, throttle := some { interval := some 100 },
                  deduplication := none, limitation := none }) (fun _ => false))).trace
      = [{ time := 0, func := 0, args := [JsVal.num 0] },
         { time := 101, func := 0, args := [JsVal.num 3] }] := by
  refine ⟨rfl, by decide, ?_⟩
  have h := throttle_admits_first_then_drops
    (some { debounce := none, throttle := some { interval := some 100 },
            deduplication := none, limitation := none }) (fun _ => false) 0
    [(0, none, [JsVal.num 0]), (50, none, [JsVal.num 1]),
     (99, none, [JsVal.num 2]), (101, none, [JsVal.num 3])] rfl (by decide)
  rw [h]
  decide

/-! ### Deduplication burst (C3) -/

lemma advanceTo_dedupInterval (t : Nat) (s : Sys) :
    (advanceTo t s).dedupInterval = s.dedupInterval :=
  congrArg (fun p => p.2.2.1) (advanceTo_configOf t s)

lemma dedup_dedupInterval (c : Option TimedFunctionConfig) (f : FuncId) (a : List JsVal)
    (s : Sys) : (Performer.deduplicate c f a s).dedupInterval = s.dedupInterval :=
  congrArg (fun p => p.2.2.1) (dedup_frame c f a s).2.2.2.2.2.2.1

lemma dedup_call_creates (c : Option TimedFunctionConfig) (f : FuncId) (a : List JsVal)
    (s : Sys) (h1 : s.dedupCalls f = none) (h2 : s.pending = []) (h3 : s.trace = []) :
    DDPending f s.nextCallId a 1 s.now (effInterval c s.dedupInterval)
      (Performer.deduplicate c f a s) := by
  have hm : findMatch s ((s.dedupCalls f).getD []) a = none := by
    rw [h1]
    rfl
  rw [dedup_eq_new c f a s hm]
  refine ⟨s.nextTimerId, ?_, ?_, ?_, h3, ?_⟩
  · simp [h1, Function.update_same]
  · simp [Function.update_same]
  · simp [h2]
  · simp

lemma dedup_call_merges (c : Option TimedFunctionConfig) (f : FuncId) (a : List JsVal)
    (s : Sys) (cid n t I : Nat) (hdd : DDPending f cid a n t I s) :
    DDPending f cid a (n + 1) s.now (effInterval c s.dedupInterval)
      (Performer.deduplicate c f a s) := by
  obtain ⟨tid, hcalls, hheap, hpend, htr, hnow⟩ := hdd
  have hm : findMatch s ((s.dedupCalls f).getD []) a = some cid := by
    rw [hcalls]
    unfold findMatch
    simp [List.find?, hheap, isDeepEqual]
  rw [dedup_eq_match c f a s cid { args := a, timeout := some tid, count := n } hm hheap]
  refine ⟨s.nextTimerId, ?_, ?_, ?_, htr, ?_⟩
  · simp [hcalls, Function.update_same]
  · simp [Function.update_same]
  · rw [hpend]
    simp
  · simp

lemma dedup_advance_keeps {f : FuncId} {cid : Nat} {a : List JsVal} {n t I u : Nat} {s : Sys}
    (hdd : DDPending f cid a n t I s) (hu : u < t + I) :
    DDPending f cid a n t I (advanceTo u s) := by
  obtain ⟨tid, hcalls, hheap, hpend, htr, hnow⟩ := hdd
  have hadv := advanceTo_not_due (t := u) (s := s) (by
    rw [hpend]
    intro tm htm
    simp at htm
    subst htm
    simpa using hu)
  rw [hadv]
  exact ⟨tid, hcalls, hheap, hpend, htr, by simp; omega⟩

lemma dedup_fire_final {f : FuncId} {cid : Nat} {a : List JsVal} {n t I T : Nat} {s : Sys}
    (hdd : DDPending f cid a n t I s) (hT : t + I ≤ T) :
    (advanceTo T s).trace = [{ time := t + I, func := f, args := .num (n : Int) :: a }] ∧
    (advanceTo T s).dedupCalls f = none ∧
    (advanceTo T s).pending = [] := by
  obtain ⟨tid, hcalls, hheap, hpend, htr, hnow⟩ := hdd
  rw [advanceTo_dedup_fire hpend hT hnow]
  refine ⟨?_, ?_, rfl⟩
  · simp [htr, heapCount, hheap]
  · simp [Function.update_same]

lemma dedup_run_burst (f : FuncId) (a : List JsVal) :
    ∀ (calls : List (Nat × Option TimedFunctionConfig)) (cid n t I : Nat) (s : Sys),
      DDPending f cid a n t I s →
      monoFrom s.now (calls.map Prod.fst) = true →
      spacedCalls s.dedupInterval (t, I) calls = true →
      DDPending f cid a (n + calls.length) (lastCall s.dedupInterval (t, I) calls).1
        (lastCall s.dedupInterval (t, I) calls).2 (runScript (dedupScript f a calls) s) := by
  intro calls
  induction calls with
  | nil =>
    intro cid n t I s hdd _ _
    simpa [dedupScript, runScript, lastCall] using hdd
  | cons c rest ih =>
    obtain ⟨t', cfg⟩ := c
    intro cid n t I s hdd hmono hsp
    simp only [List.map_cons, monoFrom, Bool.and_eq_true, decide_eq_true_eq] at hmono
    obtain ⟨hle, hmono'⟩ := hmono
    simp only [spacedCalls, Bool.and_eq_true, decide_eq_true_eq] at hsp
    obtain ⟨hlt, hsp'⟩ := hsp
    have hstep : runScript (dedupScript f a ((t', cfg) :: rest)) s
        = runScript (dedupScript f a rest)
            (Performer.deduplicate cfg f a (advanceTo t' s)) := rfl
    rw [hstep]
    have hdd₁ : DDPending f cid a n t I (advanceTo t' s) := dedup_advance_keeps hdd hlt
    have hnow₁ : (advanceTo t' s).now = t' := by
      rw [advanceTo_now]
      omega
    have hint₁ : (advanceTo t' s).dedupInterval = s.dedupInterval := advanceTo_dedupInterval t' s
    have h₂ := dedup_call_merges cfg f a (advanceTo t' s) cid n t I hdd₁
    rw [hnow₁, hint₁] at h₂
    have hint₂ : (Performer.deduplicate cfg f a (advanceTo t' s)).dedupInterval
        = s.dedupInterval := by
      rw [dedup_dedupInterval, hint₁]
    have hnow₂ : (Performer.deduplicate cfg f a (advanceTo t' s)).now = t' := by
      rw [(dedup_frame cfg f a (advanceTo t' s)).1, hnow₁]
    have ihres := ih cid (n + 1) t' (effInterval cfg s.dedupInterval)
      (Performer.deduplicate cfg f a (advanceTo t' s)) h₂
      (by rw [hnow₂]; exact hmono') (by rw [hint₂]; exact hsp')
    rw [hint₂] at ihres
    have hlast : lastCall s.dedupInterval (t, I) ((t', cfg) :: rest)
        = lastCall s.dedupInterval (t', effInterval cfg s.dedupInterval) rest := rfl
    rw [hlast]
    have hn : n + 1 + rest.length = n + (rest.length + 1) := by omega
    rw [hn] at ihres
    simpa using ihres

/-- C3: a sequence of deduplicate calls on `fn`, all with the same (hence
pairwise deep-equal) argument list, each arriving strictly inside the window
of the previous one, produces exactly one invocation, when the last window
elapses, with first argument the total number of calls merged into the group
and the remaining arguments the representative argument list; the group is
gone from the registry afterwards. -/
theorem dedup_merges_duplicate_burst (pc : Option PerformerConfig) (thr : FuncId → Bool)
    (f : FuncId) (a : List JsVal) (t₀ : Nat) (c₀ : Option TimedFunctionConfig)
    (calls : List (Nat × Option TimedFunctionConfig)) (T tL IL : Nat)
    (hmono : monoFrom t₀ (calls.map Prod.fst) = true)
    (hsp : spacedCalls (Performer.init pc thr).dedupInterval
      (t₀, effInterval c₀ (Performer.init pc thr).dedupInterval) calls = true)
    (hlast : lastCall (Performer.init pc thr).dedupInterval
      (t₀, effInterval c₀ (Performer.init pc thr).dedupInterval) calls = (tL, IL))
    (hT : tL + IL ≤ T) :
    (advanceTo T (runScript (dedupScript f a ((t₀, c₀) :: calls))
        (Performer.init pc thr))).trace
      = [{ time := tL + IL, func := f,
           args := .num ((1 + calls.length : Nat) : Int) :: a }] ∧
    (advanceTo T (runScript (dedupScript f a ((t₀, c₀) :: calls))
        (Performer.init pc thr))).dedupCalls f = none := by
  have hstep : runScript (dedupScript f a ((t₀, c₀) :: calls)) (Performer.init pc thr)
      = runScript (dedupScript f a calls)
          (Performer.deduplicate c₀ f a (advanceTo t₀ (Performer.init pc thr))) := rfl
  have hadv₀ : advanceTo t₀ (Performer.init pc thr)
      = { Performer.init pc thr with now := t₀ } := by
    rw [advanceTo_not_due (by simp [Performer.init])]
    simp [Performer.init]
  have hdd₀ := dedup_call_creates c₀ f a (advanceTo t₀ (Performer.init pc thr))
    (by rw [hadv₀]; rfl) (by rw [hadv₀]; rfl) (by rw [hadv₀]; rfl)
  have hnow₀ : (advanceTo t₀ (Performer.init pc thr)).now = t₀ := by
    rw [hadv₀]
  have hint₀ : (advanceTo t₀ (Performer.init pc thr)).dedupInterval
      = (Performer.init pc thr).dedupInterval := advanceTo_dedupInterval _ _
  rw [hnow₀, hint₀] at hdd₀
  have hnow₁ : (Performer.deduplicate c₀ f a (advanceTo t₀ (Performer.init pc thr))).now
      = t₀ := by
    rw [(dedup_frame c₀ f a _).1, hnow₀]
  have hint₁ : (Performer.deduplicate c₀ f a
      (advanceTo t₀ (Performer.init pc thr))).dedupInterval
      = (Performer.init pc thr).dedupInterval := by
    rw [dedup_dedupInterval, hint₀]
  have hburst := dedup_run_burst f a calls _ 1 t₀
    (effInterval c₀ (Performer.init pc thr).dedupInterval)
    (Performer.deduplicate c₀ f a (advanceTo t₀ (Performer.init pc thr))) hdd₀
    (by rw [hnow₁]; exact hmono) (by rw [hint₁]; exact hsp)
  rw [hint₁, hlast] at hburst
  have hfin := dedup_fire_final hburst hT
  rw [hstep]
  exact ⟨hfin.1, hfin.2.1⟩

theorem dedup_merges_duplicate_burst_witness :
    (monoFrom 0 (([(10, none)] : List (Nat × Option TimedFunctionConfig)).map Prod.fst)
        = true) ∧
    (spacedCalls 100 (0, 100) [(10, none)] = true) ∧
    (lastCall 100 (0, 100) [(10, none)] = (10, 100)) ∧
    (advanceTo 110 (runScript (dedupScript 0 [.num 1] [(0, none), (10, none)])
        (Performer.init
          (some { debounce := none, throttle := none,
                  deduplication := some { interval := some 100 }, limitation := none })
          (fun _ => false)))).trace
      = [{ time := 110, func := 0, args := [.num 2, .num 1] }] := by
  refine ⟨by decide, by decide, by decide, ?_⟩
  have h := dedup_merges_duplicate_burst
    (some { debounce := none, throttle := none,
            deduplication := some { interval := some 100 }, limitation := none })
    (fun _ => false) 0 [.num 1] 0 none [(10, none)] 110 10 100
    (by decide) (by decide) (by decide) (by decide)
  simpa using h.1

/-! ### Debounce bursts with interleaved traffic (C1) -/

lemma timersFor_append (f : FuncId) (p q : List Timer) :
    timersFor f (p ++ q) = timersFor f p ++ timersFor f q := by
  simp [timersFor, List.filter_append]

lemma timersFor_filter (f : FuncId) (tid : Nat) (p : List Timer) :
    timersFor f (p.filter (fun tm => tm.id != tid))
      = (timersFor f p).filter (fun tm => tm.id != tid) := by
  simp only [timersFor]
  exact List.filter_comm _ _ _

lemma timersFor_cons_ne (f : FuncId) (tm : Timer) (p : List Timer)
    (h : tm.action.funcOf ≠ f) : timersFor f (tm :: p) = timersFor f p := by
  simp [timersFor, List.filter_cons, h]

lemma timersFor_mem {f : FuncId} {tm : Timer} {p : List Timer} :
    tm ∈ timersFor f p ↔ tm ∈ p ∧ tm.action.funcOf = f := by
  simp [timersFor, List.mem_filter]

lemma traceFor_append (f : FuncId) (tr tr' : List Invocation) :
    traceFor f (tr ++ tr') = traceFor f tr ++ traceFor f tr' := by
  simp [traceFor, List.filter_append]

lemma traceFor_single_ne (f g : FuncId) (hg : g ≠ f) (time : Nat) (args : List JsVal) :
    traceFor f [{ time := time, func := g, args := args }] = [] := by
  simp [traceFor, hg]

lemma traceFor_single_eq (f : FuncId) (time : Nat) (args : List JsVal) :
    traceFor f [{ time := time, func := f, args := args }]
      = [{ time := time, func := f, args := args }] := by
  simp [traceFor]

lemma slotIdsBound_step {s s' : Sys} (hn : s.nextTimerId ≤ s'.nextTimerId)
    (hd : ∀ g c, s'.debounceCalls g = some c →
      (s.debounceCalls g = some c ∨ ∀ i, c.timeout = some i → i < s'.nextTimerId))
    (hh : ∀ cid c, s'.dedupHeap cid = some c →
      (s.dedupHeap cid = some c ∨ ∀ i, c.timeout = some i → i < s'.nextTimerId))
    (h : slotIdsBound s) : slotIdsBound s' := by
  constructor
  · intro g c hc tid htid
    rcases hd g c hc with hold | hfresh
    · exact lt_of_lt_of_le (h.1 g c hold tid htid) hn
    · exact hfresh tid htid
  · intro cid c hc tid htid
    rcases hh cid c hc with hold | hfresh
    · exact lt_of_lt_of_le (h.2 cid c hold tid htid) hn
    · exact hfresh tid htid

lemma noSlotHolds_step {s s' : Sys} {f : FuncId} {tid : Nat} (htid : tid < s.nextTimerId)
    (hd : ∀ g, g ≠ f → ∀ c, s'.debounceCalls g = some c →
      (s.debounceCalls g = some c ∨ ∀ i, c.timeout = some i → s.nextTimerId ≤ i))
    (hh : ∀ cid c, s'.dedupHeap cid = some c →
      (s.dedupHeap cid = some c ∨ ∀ i, c.timeout = some i → s.nextTimerId ≤ i))
    (h : noSlotHolds s f tid) : noSlotHolds s' f tid := by
  constructor
  · intro g hg c hc
    rcases hd g hg c hc with hold | hfresh
    · exact h.1 g hg c hold
    · intro heq
      have := hfresh tid heq
      omega
  · intro cid c hc
    rcases hh cid c hc with hold | hfresh
    · exact h.2 cid c hold
    · intro heq
      have := hfresh tid heq
      omega

lemma runTimerAction_slots (s : Sys) (act : TimerAction) :
    (slotIdsBound s → slotIdsBound (runTimerAction s act)) ∧
    (∀ f tid, noSlotHolds s f tid → noSlotHolds (runTimerAction s act) f tid) := by
  have hh : (runTimerAction s act).dedupHeap = s.dedupHeap := runTimerAction_dedupHeap s act
  have hnt : (runTimerAction s act).nextTimerId = s.nextTimerId :=
    runTimerAction_nextTimerId s act
  have hd : ∀ g c, (runTimerAction s act).debounceCalls g = some c →
      s.debounceCalls g = some c := by
    intro g c hc
    cases act with
    | debounceFire g' args =>
      by_cases hg : g = g'
      · subst hg
        simp [runTimerAction, invoke, Function.update_same] at hc
      · simpa [runTimerAction, invoke, Function.update_noteq hg] using hc
    | throttleFire g' => exact hc
    | dedupFire g' cid args => exact hc
  constructor
  · intro h
    constructor
    · intro g c hc tid htid
      rw [hnt]
      exact h.1 g c (hd g c hc) tid htid
    · intro cid c hc tid htid
      rw [hnt]
      exact h.2 cid c (by rwa [hh] at hc) tid htid
  · intro f tid h
    exact ⟨fun g hg c hc => h.1 g hg c (hd g c hc),
           fun cid c hc => h.2 cid c (by rwa [hh] at hc)⟩

lemma runTimerAction_obsF {f : FuncId} (s : Sys) (act : TimerAction)
    (hf : act.funcOf ≠ f) :
    (runTimerAction s act).debounceCalls f = s.debounceCalls f ∧
    traceFor f (runTimerAction s act).trace = traceFor f s.trace := by
  cases act with
  | debounceFire g args =>
    have hg : g ≠ f := hf
    constructor
    · show (Function.update s.debounceCalls g none) f = s.debounceCalls f
      exact Function.update_noteq (Ne.symm hg) _ _
    · show traceFor f (s.trace ++ [{ time := s.now, func := g, args := args }])
        = traceFor f s.trace
      rw [traceFor_append, traceFor_single_ne f g hg, List.append_nil]
  | throttleFire g => exact ⟨rfl, rfl⟩
  | dedupFire g cid args =>
    have hg : g ≠ f := hf
    refine ⟨rfl, ?_⟩
    show traceFor f (s.trace ++ [_]) = traceFor f s.trace
    rw [traceFor_append, traceFor_single_ne f g hg, List.append_nil]

lemma advanceLoop_obsF (f : FuncId) : ∀ (fuel t : Nat) (s : Sys),
    (∀ tm ∈ s.pending, tm.action.funcOf = f → t < tm.due) →
    (advanceLoop fuel t s).debounceCalls f = s.debounceCalls f ∧
    timersFor f (advanceLoop fuel t s).pending = timersFor f s.pending ∧
    traceFor f (advanceLoop fuel t s).trace = traceFor f s.trace ∧
    (slotIdsBound s → slotIdsBound (advanceLoop fuel t s)) ∧
    (∀ tid, noSlotHolds s f tid → noSlotHolds (advanceLoop fuel t s) f tid) := by
  intro fuel
  induction fuel with
  | zero =>
    intro t s hdue
    exact ⟨rfl, rfl, rfl, fun h => h, fun tid h => h⟩
  | succ fuel ih =>
    intro t s hdue
    rw [advanceLoop]
    cases hp : pickDue t s.pending with
    | none => exact ⟨rfl, rfl, rfl, fun h => h, fun tid h => h⟩
    | some pr =>
      obtain ⟨tm, rest⟩ := pr
      obtain ⟨hdue', hmin, l₁, l₂, hsplit, hrest⟩ := pickDue_some hp
      have hmem : tm ∈ s.pending := by
        rw [hsplit]
        simp
      have hftm : tm.action.funcOf ≠ f := by
        intro hcontra
        have := hdue tm hmem hcontra
        omega
      have htrest : timersFor f rest = timersFor f s.pending := by
        rw [hrest, hsplit, timersFor_append, timersFor_append,
          timersFor_cons_ne f tm l₂ hftm]
      have hdue₂ : ∀ tm' ∈ (runTimerAction
          { s with pending := rest, now := max s.now tm.due } tm.action).pending,
          tm'.action.funcOf = f → t < tm'.due := by
        intro tm' hm hf'
        rw [runTimerAction_pending] at hm
        have hm' : tm' ∈ s.pending := by
          rw [hsplit]
          rw [hrest] at hm
          rcases List.mem_append.mp hm with h | h
          · exact List.mem_append.mpr (Or.inl h)
          · exact List.mem_append.mpr (Or.inr (List.mem_cons_of_mem _ h))
        exact hdue tm' hm' hf'
      obtain ⟨ih1, ih2, ih3, ih4, ih5⟩ := ih t _ hdue₂
      have hobs := runTimerAction_obsF (f := f)
        { s with pending := rest, now := max s.now tm.due } tm.action hftm
      have hslots := runTimerAction_slots
        { s with pending := rest, now := max s.now tm.due } tm.action
      refine ⟨?_, ?_, ?_, ?_, ?_⟩
      · rw [ih1, hobs.1]
      · rw [ih2, runTimerAction_pending]
        exact htrest
      · rw [ih3, hobs.2]
      · intro h
        exact ih4 (hslots.1 h)
      · intro tid h
        exact ih5 tid (hslots.2 f tid h)

lemma advanceLoop_keepsFired {f : FuncId} {t I : Nat} {a : List JsVal}
    (fuel u : Nat) (s : Sys) (hf : DFired f t I a s) :
    DFired f t I a (advanceLoop fuel u s) := by
  obtain ⟨hentry, htimers, htrace, hnow⟩ := hf
  have hdue : ∀ tm ∈ s.pending, tm.action.funcOf = f → u < tm.due := by
    intro tm hm hfu
    have hmem : tm ∈ timersFor f s.pending := timersFor_mem.mpr ⟨hm, hfu⟩
    rw [htimers] at hmem
    simp at hmem
  obtain ⟨h1, h2, h3, _, _⟩ := advanceLoop_obsF f fuel u s hdue
  refine ⟨by rw [h1, hentry], by rw [h2, htimers], by rw [h3, htrace], ?_⟩
  rw [advanceLoop_now]
  omega

lemma advanceLoop_keepsPending {f : FuncId} {t I : Nat} {a : List JsVal}
    (fuel u : Nat) (s : Sys) (hsb : slotIdsBound s) (hdd : DPending f t I a s)
    (hu : u < t + I) :
    DPending f t I a (advanceLoop fuel u s) ∧ slotIdsBound (advanceLoop fuel u s) := by
  obtain ⟨tid, hentry, htimers, htrace, hbound, hnos, hnow⟩ := hdd
  have hdue : ∀ tm ∈ s.pending, tm.action.funcOf = f → u < tm.due := by
    intro tm hm hfu
    have hmem : tm ∈ timersFor f s.pending := timersFor_mem.mpr ⟨hm, hfu⟩
    rw [htimers] at hmem
    simp at hmem
    rw [hmem]
    simpa using hu
  obtain ⟨h1, h2, h3, h4, h5⟩ := advanceLoop_obsF f fuel u s hdue
  refine ⟨⟨tid, by rw [h1, hentry], by rw [h2, htimers], by rw [h3, htrace],
    by rw [advanceLoop_nextTimerId]; exact hbound, h5 tid hnos, ?_⟩, h4 hsb⟩
  rw [advanceLoop_now]
  omega

lemma advanceLoop_fireF {f : FuncId} {t I : Nat} {a : List JsVal} :
    ∀ (fuel u : Nat) (s : Sys), s.pending.length ≤ fuel →
      DPending f t I a s → t + I ≤ u → DFired f t I a (advanceLoop fuel u s) := by
  intro fuel
  induction fuel with
  | zero =>
    intro u s hlen hdd hT
    obtain ⟨tid, hentry, htimers, htrace, hbound, hnos, hnow⟩ := hdd
    have hnil : s.pending = [] := List.length_eq_zero.mp (Nat.le_zero.mp hlen)
    rw [hnil] at htimers
    exact absurd htimers (by simp [timersFor])
  | succ fuel ih =>
    intro u s hlen hdd hT
    obtain ⟨tid, hentry, htimers, htrace, hbound, hnos, hnow⟩ := hdd
    have htm₀ : ({ id := tid, due := t + I, action := .debounceFire f a } : Timer)
        ∈ s.pending := by
      have hmem : ({ id := tid, due := t + I, action := .debounceFire f a } : Timer)
          ∈ timersFor f s.pending := by
        rw [htimers]
        exact List.mem_singleton_self _
      exact (timersFor_mem.mp hmem).1
    rw [advanceLoop]
    cases hp : pickDue u s.pending with
    | none =>
      exfalso
      have := pickDue_none hp _ htm₀
      simp at this
      omega
    | some pr =>
      obtain ⟨tm, rest⟩ := pr
      obtain ⟨hdue', hmin, l₁, l₂, hsplit, hrest⟩ := pickDue_some hp
      have hminI : tm.due ≤ t + I := by
        have := hmin _ htm₀
        simpa using this
      have hlenr : rest.length + 1 = s.pending.length := by
        rw [hsplit, hrest]
        simp only [List.length_append, List.length_cons]
        omega
      by_cases hftm : tm.action.funcOf = f
      · -- the burst's own timer fires now
        have htm_eq : tm = { id := tid, due := t + I, action := .debounceFire f a } := by
          have hmem : tm ∈ timersFor f s.pending :=
            timersFor_mem.mpr ⟨by rw [hsplit]; simp, hftm⟩
          rw [htimers] at hmem
          simpa using hmem
        have hrest0 : timersFor f rest = [] := by
          have hps : timersFor f s.pending
              = timersFor f l₁ ++ tm :: timersFor f l₂ := by
            rw [hsplit, timersFor_append]
            congr 1
            simp [timersFor, List.filter_cons, hftm]
          rw [htimers] at hps
          obtain ⟨e1, _, e2⟩ := append_cons_eq_singleton hps.symm
          rw [hrest, timersFor_append, e1, e2]
          rfl
        rw [htm_eq]
        have hfired : DFired f t I a (runTimerAction
            { s with pending := rest, now := max s.now (t + I) }
            (.debounceFire f a)) := by
          refine ⟨?_, ?_, ?_, ?_⟩
          · show (Function.update s.debounceCalls f none) f = none
            exact Function.update_same _ _ _
          · show timersFor f rest = []
            exact hrest0
          · show traceFor f (s.trace ++
              [{ time := max s.now (t + I), func := f, args := a }]) = _
            have hmx : max s.now (t + I) = t + I := by omega
            rw [hmx, traceFor_append, htrace, traceFor_single_eq]
            rfl
          · show t + I ≤ max s.now (t + I)
            omega
        exact advanceLoop_keepsFired fuel u _ hfired
      · -- an unrelated timer fires first
        have hobs := runTimerAction_obsF (f := f)
          { s with pending := rest, now := max s.now tm.due } tm.action hftm
        have hslots := runTimerAction_slots
          { s with pending := rest, now := max s.now tm.due } tm.action
        have htrest : timersFor f rest = timersFor f s.pending := by
          rw [hrest, hsplit, timersFor_append, timersFor_append,
            timersFor_cons_ne f tm l₂ hftm]
        have hdd₂ : DPending f t I a (runTimerAction
            { s with pending := rest, now := max s.now tm.due } tm.action) := by
          refine ⟨tid, by rw [hobs.1]; exact hentry, ?_, by rw [hobs.2]; exact htrace,
            by rw [runTimerAction_nextTimerId]; exact hbound,
            hslots.2 f tid hnos, ?_⟩
          · rw [runTimerAction_pending]
            show timersFor f rest = _
            rw [htrest, htimers]
          · rw [runTimerAction_now]
            show max s.now tm.due ≤ t + I
            omega
        apply ih u _ _ hdd₂ hT
        rw [runTimerAction_pending]
        show rest.length ≤ fuel
        omega

lemma advanceLoop_slotIdsBound : ∀ (fuel t : Nat) (s : Sys),
    slotIdsBound s → slotIdsBound (advanceLoop fuel t s) := by
  intro fuel
  induction fuel with
  | zero => intro t s h; exact h
  | succ fuel ih =>
    intro t s h
    rw [advanceLoop]
    cases hp : pickDue t s.pending with
    | none => exact h
    | some pr =>
      obtain ⟨tm, rest⟩ := pr
      exact ih t _ ((runTimerAction_slots _ tm.action).1 h)

lemma advanceTo_phase (f : FuncId) (u : Nat) (s : Sys)
    (ph : Option (Nat × Nat × List JsVal))
    (hsb : slotIdsBound s) (hph : DPhase f s ph) :
    slotIdsBound (advanceTo u s) ∧ DPhase f (advanceTo u s) ph := by
  cases ph with
  | none =>
    obtain ⟨hentry, htimers, htrace⟩ := hph
    have hdue : ∀ tm ∈ s.pending, tm.action.funcOf = f → u < tm.due := by
      intro tm hm hf'
      have hmem : tm ∈ timersFor f s.pending := timersFor_mem.mpr ⟨hm, hf'⟩
      rw [htimers] at hmem
      simp at hmem
    obtain ⟨h1, h2, h3, h4, _⟩ := advanceLoop_obsF f s.pending.length u s hdue
    exact ⟨h4 hsb, h1.trans hentry, h2.trans htimers, h3.trans htrace⟩
  | some tIa =>
    obtain ⟨t, I, a⟩ := tIa
    rcases hph with hpd | hfd
    · by_cases hu : u < t + I
      · obtain ⟨hp, hb⟩ := advanceLoop_keepsPending s.pending.length u s hsb hpd hu
        exact ⟨hb, Or.inl hp⟩
      · have hf := advanceLoop_fireF s.pending.length u s le_rfl hpd (by omega)
        exact ⟨advanceLoop_slotIdsBound _ _ _ hsb, Or.inr hf⟩
    · exact ⟨advanceLoop_slotIdsBound _ _ _ hsb,
        Or.inr (advanceLoop_keepsFired _ _ _ hfd)⟩

lemma slots_transfer {s s' : Sys}
    (hn : s.nextTimerId ≤ s'.nextTimerId)
    (hd : ∀ g c', s'.debounceCalls g = some c' →
      (s.debounceCalls g = some c' ∨
        ∀ i, c'.timeout = some i → s.nextTimerId ≤ i ∧ i < s'.nextTimerId))
    (hh : ∀ cid c', s'.dedupHeap cid = some c' →
      (s.dedupHeap cid = some c' ∨
        ∀ i, c'.timeout = some i → s.nextTimerId ≤ i ∧ i < s'.nextTimerId)) :
    (slotIdsBound s → slotIdsBound s') ∧
    (∀ f tid, tid < s.nextTimerId → noSlotHolds s f tid → noSlotHolds s' f tid) := by
  constructor
  · intro h
    constructor
    · intro g c hc tid ht
      rcases hd g c hc with hold | hfresh
      · exact lt_of_lt_of_le (h.1 g c hold tid ht) hn
      · exact (hfresh tid ht).2
    · intro cid c hc tid ht
      rcases hh cid c hc with hold | hfresh
      · exact lt_of_lt_of_le (h.2 cid c hold tid ht) hn
      · exact (hfresh tid ht).2
  · intro f tid htid h
    constructor
    · intro g hg c hc
      rcases hd g c hc with hold | hfresh
      · exact h.1 g hg c hold
      · intro heq
        have := (hfresh tid heq).1
        omega
    · intro cid c hc
      rcases hh cid c hc with hold | hfresh
      · exact h.2 cid c hold
      · intro heq
        have := (hfresh tid heq).1
        omega

lemma debounce_slotShape (c : Option TimedFunctionConfig) (g : FuncId) (a : List JsVal)
    (s : Sys) :
    (∀ g' c', (Performer.debounce c g a s).debounceCalls g' = some c' →
      (s.debounceCalls g' = some c' ∨
        ∀ i, c'.timeout = some i →
          s.nextTimerId ≤ i ∧ i < (Performer.debounce c g a s).nextTimerId)) ∧
    (Performer.debounce c g a s).dedupHeap = s.dedupHeap := by
  rw [debounce_eq]
  refine ⟨?_, rfl⟩
  intro g' c' hc'
  dsimp only at hc' ⊢
  by_cases hg : g' = g
  · subst hg
    rw [Function.update_same] at hc'
    right
    injection hc' with hce
    subst hce
    intro i hi
    simp at hi
    omega
  · left
    rwa [Function.update_noteq hg] at hc'

lemma dedup_slotShape (c : Option TimedFunctionConfig) (g : FuncId) (a : List JsVal)
    (s : Sys) :
    (Performer.deduplicate c g a s).debounceCalls = s.debounceCalls ∧
    (∀ cid c', (Performer.deduplicate c g a s).dedupHeap cid = some c' →
      (s.dedupHeap cid = some c' ∨
        ∀ i, c'.timeout = some i →
          s.nextTimerId ≤ i ∧ i < (Performer.deduplicate c g a s).nextTimerId)) := by
  refine ⟨(dedup_frame c g a s).2.2.2.1, ?_⟩
  cases hm : findMatch s ((s.dedupCalls g).getD []) a with
  | none =>
    rw [dedup_eq_new c g a s hm]
    intro cid c' hc'
    dsimp only at hc' ⊢
    by_cases hcid : cid = s.nextCallId
    · subst hcid
      rw [Function.update_same] at hc'
      right
      injection hc' with hce
      subst hce
      intro i hi
      simp at hi
      omega
    · left
      rwa [Function.update_noteq hcid] at hc'
  | some cid₀ =>
    cases hco : s.dedupHeap cid₀ with
    | none =>
      rw [dedup_eq_dangling c g a s cid₀ hm hco]
      intro cid c' hc'
      exact Or.inl hc'
    | some co =>
      rw [dedup_eq_match c g a s cid₀ co hm hco]
      intro cid c' hc'
      dsimp only at hc' ⊢
      by_cases hcid : cid = cid₀
      · subst hcid
        rw [Function.update_same] at hc'
        right
        injection hc' with hce
        subst hce
        intro i hi
        simp at hi
        omega
      · left
        rwa [Function.update_noteq hcid] at hc'

lemma DPhase_transfer {f : FuncId} {s s' : Sys} {ph : Option (Nat × Nat × List JsVal)}
    (hentry : s'.debounceCalls f = s.debounceCalls f)
    (htrace : traceFor f s'.trace = traceFor f s.trace)
    (hnow : s'.now = s.now)
    (hnt : s.nextTimerId ≤ s'.nextTimerId)
    (htimers0 : timersFor f s.pending = [] → timersFor f s'.pending = [])
    (htimers1 : ∀ tm : Timer, timersFor f s.pending = [tm] → noSlotHolds s f tm.id →
        timersFor f s'.pending = [tm])
    (hnos : ∀ tid, tid < s.nextTimerId → noSlotHolds s f tid → noSlotHolds s' f tid)
    (hph : DPhase f s ph) : DPhase f s' ph := by
  cases ph with
  | none =>
    obtain ⟨h1, h2, h3⟩ := hph
    exact ⟨by rw [hentry, h1], htimers0 h2, by rw [htrace, h3]⟩
  | some tIa =>
    obtain ⟨t, I, a⟩ := tIa
    rcases hph with ⟨tid, h1, h2, h3, h4, h5, h6⟩ | ⟨h1, h2, h3, h4⟩
    · exact Or.inl ⟨tid, by rw [hentry, h1], htimers1 _ h2 h5, by rw [htrace, h3],
        lt_of_lt_of_le h4 hnt, hnos tid h4 h5, by rw [hnow]; exact h6⟩
    · exact Or.inr ⟨by rw [hentry, h1], htimers0 h2, by rw [htrace, h3],
        by rw [hnow]; exact h4⟩

lemma timersFor_single_ne (f : FuncId) (tm : Timer) (h : tm.action.funcOf ≠ f) :
    timersFor f [tm] = [] := by
  simp [timersFor, h]

lemma debounce_timersFacts (c : Option TimedFunctionConfig) (g : FuncId) (a : List JsVal)
    (s : Sys) (f : FuncId) (hg : g ≠ f) :
    (timersFor f s.pending = [] → timersFor f (Performer.debounce c g a s).pending = []) ∧
    (∀ tm : Timer, timersFor f s.pending = [tm] → noSlotHolds s f tm.id →
      timersFor f (Performer.debounce c g a s).pending = [tm]) := by
  rw [debounce_eq]
  dsimp only
  constructor
  · intro h0
    cases ht : ((s.debounceCalls g).getD { timeout := none }).timeout with
    | none =>
      dsimp only
      rw [timersFor_append, h0]
      simp [timersFor, TimerAction.funcOf, hg]
    | some tid_g =>
      dsimp only
      rw [timersFor_append, timersFor_filter, h0]
      simp [timersFor, TimerAction.funcOf, hg]
  · intro tm h1 hnos
    cases ht : ((s.debounceCalls g).getD { timeout := none }).timeout with
    | none =>
      dsimp only
      rw [timersFor_append, h1]
      simp [timersFor, TimerAction.funcOf, hg]
    | some tid_g =>
      have hstore : ∃ cc, s.debounceCalls g = some cc ∧ cc.timeout = some tid_g := by
        cases hdc : s.debounceCalls g with
        | none =>
          rw [hdc] at ht
          simp at ht
        | some cc =>
          rw [hdc] at ht
          exact ⟨cc, rfl, ht⟩
      obtain ⟨cc, hcc, hcct⟩ := hstore
      have hne : tm.id ≠ tid_g := by
        intro he
        exact hnos.1 g hg cc hcc (by rw [hcct, he])
      dsimp only
      rw [timersFor_append, timersFor_filter, h1]
      simp [timersFor, TimerAction.funcOf, hg, hne]

lemma dedup_timersFacts (c : Option TimedFunctionConfig) (g : FuncId) (a : List JsVal)
    (s : Sys) (f : FuncId) (hg : g ≠ f) :
    (timersFor f s.pending = [] → timersFor f (Performer.deduplicate c g a s).pending = []) ∧
    (∀ tm : Timer, timersFor f s.pending = [tm] → noSlotHolds s f tm.id →
      timersFor f (Performer.deduplicate c g a s).pending = [tm]) := by
  cases hm : findMatch s ((s.dedupCalls g).getD []) a with
  | none =>
    rw [dedup_eq_new c g a s hm]
    dsimp only
    constructor
    · intro h0
      rw [timersFor_append, h0]
      simp [timersFor, TimerAction.funcOf, hg]
    · intro tm h1 hnos
      rw [timersFor_append, h1]
      simp [timersFor, TimerAction.funcOf, hg]
  | some cid₀ =>
    cases hco : s.dedupHeap cid₀ with
    | none =>
      rw [dedup_eq_dangling c g a s cid₀ hm hco]
      exact ⟨fun h0 => h0, fun tm h1 _ => h1⟩
    | some co =>
      rw [dedup_eq_match c g a s cid₀ co hm hco]
      dsimp only
      constructor
      · intro h0
        cases ht : co.timeout with
        | none =>
          dsimp only
          rw [timersFor_append, h0]
          simp [timersFor, TimerAction.funcOf, hg]
        | some tid_h =>
          dsimp only
          rw [timersFor_append, timersFor_filter, h0]
          simp [timersFor, TimerAction.funcOf, hg]
      · intro tm h1 hnos
        cases ht : co.timeout with
        | none =>
          dsimp only
          rw [timersFor_append, h1]
          simp [timersFor, TimerAction.funcOf, hg]
        | some tid_h =>
          have hne : tm.id ≠ tid_h := by
            intro he
            exact hnos.2 cid₀ co hco (by rw [ht, he])
          dsimp only
          rw [timersFor_append, timersFor_filter, h1]
          simp [timersFor, TimerAction.funcOf, hg, hne]

lemma throttle_stepFacts (c : Option TimedFunctionConfig) (g : FuncId) (a : List JsVal)
    (s : Sys) (f : FuncId) (hg : g ≠ f) :
    timersFor f (Performer.throttle c g a s).pending = timersFor f s.pending ∧
    traceFor f (Performer.throttle c g a s).trace = traceFor f s.trace := by
  by_cases h : s.throttleCalls g = true
  · rw [throttle_eq_member c a h]
    exact ⟨rfl, rfl⟩
  · have h' : s.throttleCalls g = false := by simpa using h
    by_cases ht : s.throwing g = true
    · rw [throttle_eq_throwing c a h' ht]
      exact ⟨rfl, by rw [traceFor_append, traceFor_single_ne f g hg, List.append_nil]⟩
    · have ht' : s.throwing g = false := by simpa using ht
      rw [throttle_eq_run c a h' ht']
      constructor
      · rw [timersFor_append]
        simp [timersFor, TimerAction.funcOf, hg]
      · rw [traceFor_append, traceFor_single_ne f g hg, List.append_nil]

lemma limit_traceFact (c : Option LimitedFunctionConfig) (g : FuncId) (a : List JsVal)
    (s : Sys) (f : FuncId) (hg : g ≠ f) :
    traceFor f (Performer.limit c g a s).trace = traceFor f s.trace := by
  cases hb : MaxVal.ltNat ((s.limitCalls g).getD 0) (effMax c s.limitMax) with
  | true =>
    rw [limit_eq_invoke a hb]
    exact by rw [traceFor_append, traceFor_single_ne f g hg, List.append_nil]
  | false =>
    rw [limit_eq_drop a hb]

lemma dispatch_distract_phase (f : FuncId) (e : Event) (s : Sys) (he : e.funcOf ≠ f)
    (ph : Option (Nat × Nat × List JsVal)) (hsb : slotIdsBound s) (hph : DPhase f s ph) :
    slotIdsBound (dispatch e s) ∧ DPhase f (dispatch e s) ph ∧
    (dispatch e s).now = s.now ∧
    configOf (dispatch e s) = configOf s ∧
    (dispatch e s).throwing = s.throwing := by
  cases e with
  | debounce c g a =>
    have hg : g ≠ f := he
    dsimp only [dispatch]
    have hfr := debounce_frame c g a s
    have hss := debounce_slotShape c g a s
    have htf := debounce_timersFacts c g a s f hg
    have hnt : s.nextTimerId ≤ (Performer.debounce c g a s).nextTimerId := by
      rw [hfr.2.2.2.2.2.2.2.2.2]
      omega
    have hslots := slots_transfer hnt hss.1
      (fun cid c' hc => Or.inl (by rw [hss.2] at hc; exact hc))
    have hentry : (Performer.debounce c g a s).debounceCalls f = s.debounceCalls f := by
      rw [debounce_eq]
      dsimp only
      exact Function.update_noteq (Ne.symm hg) _ _
    exact ⟨hslots.1 hsb,
      DPhase_transfer hentry (by rw [hfr.2.2.1]) hfr.1 hnt htf.1 htf.2
        (fun tid ht hn => hslots.2 f tid ht hn) hph,
      hfr.1, hfr.2.2.2.2.2.2.2.2.1, hfr.2.1⟩
  | throttle c g a =>
    have hg : g ≠ f := he
    dsimp only [dispatch]
    have hfr := throttle_frame c g a s
    have hsf := throttle_stepFacts c g a s f hg
    have hslots := slots_transfer hfr.2.2.2.2.2.2.2.2
      (fun g' c' hc => Or.inl (by rw [hfr.2.2.1] at hc; exact hc))
      (fun cid c' hc => Or.inl (by rw [hfr.2.2.2.2.1] at hc; exact hc))
    exact ⟨hslots.1 hsb,
      DPhase_transfer (by rw [hfr.2.2.1]) hsf.2 hfr.1 hfr.2.2.2.2.2.2.2.2
        (fun h0 => by rw [hsf.1, h0]) (fun tm h1 _ => by rw [hsf.1, h1])
        (fun tid ht hn => hslots.2 f tid ht hn) hph,
      hfr.1, hfr.2.2.2.2.2.2.2.1, hfr.2.1⟩
  | dedup c g a =>
    have hg : g ≠ f := he
    dsimp only [dispatch]
    have hfr := dedup_frame c g a s
    have hss := dedup_slotShape c g a s
    have htf := dedup_timersFacts c g a s f hg
    have hslots := slots_transfer hfr.2.2.2.2.2.2.2.1
      (fun g' c' hc => Or.inl (by rw [hss.1] at hc; exact hc)) hss.2
    exact ⟨hslots.1 hsb,
      DPhase_transfer (by rw [hss.1]) (by rw [hfr.2.2.1]) hfr.1 hfr.2.2.2.2.2.2.2.1
        htf.1 htf.2 (fun tid ht hn => hslots.2 f tid ht hn) hph,
      hfr.1, hfr.2.2.2.2.2.2.1, hfr.2.1⟩
  | limit c g a =>
    have hg : g ≠ f := he
    dsimp only [dispatch]
    have hfr := limit_frame c g a s
    have htr := limit_traceFact c g a s f hg
    have hslots := slots_transfer (le_of_eq hfr.2.2.2.2.2.2.2.2.1.symm)
      (fun g' c' hc => Or.inl (by rw [hfr.2.2.2.1] at hc; exact hc))
      (fun cid c' hc => Or.inl (by rw [hfr.2.2.2.2.2.2.1] at hc; exact hc))
    exact ⟨hslots.1 hsb,
      DPhase_transfer (by rw [hfr.2.2.2.1]) htr hfr.1
        (le_of_eq hfr.2.2.2.2.2.2.2.2.1.symm)
        (fun h0 => by rw [hfr.2.2.1, h0]) (fun tm h1 _ => by rw [hfr.2.2.1, h1])
        (fun tid ht hn => hslots.2 f tid ht hn) hph,
      hfr.1, hfr.2.2.2.2.2.2.2.2.2, hfr.2.1⟩

lemma debounce_fcall_from_pre (cfg : Option TimedFunctionConfig) (f : FuncId)
    (a : List JsVal) (s : Sys) (hsb : slotIdsBound s) (hpre : DPre f s) :
    slotIdsBound (Performer.debounce cfg f a s) ∧
    DPending f s.now (effInterval cfg s.debounceInterval) a
      (Performer.debounce cfg f a s) := by
  obtain ⟨hentry, htimers, htrace⟩ := hpre
  have hss := debounce_slotShape cfg f a s
  have hfr := debounce_frame cfg f a s
  have hentry_g : ∀ g, g ≠ f →
      (Performer.debounce cfg f a s).debounceCalls g = s.debounceCalls g := by
    intro g hgf
    rw [debounce_eq]
    dsimp only
    exact Function.update_noteq hgf _ _
  constructor
  · exact (slots_transfer (by rw [hfr.2.2.2.2.2.2.2.2.2]; omega) hss.1
      (fun cid c' hc => Or.inl (by rw [hss.2] at hc; exact hc))).1 hsb
  · refine ⟨s.nextTimerId, ?_, ?_, ?_, ?_, ?_, ?_⟩
    · rw [debounce_eq]
      dsimp only
      exact Function.update_same _ _ _
    · rw [debounce_eq]
      dsimp only
      rw [hentry]
      show timersFor f (s.pending ++
        [{ id := s.nextTimerId, due := s.now + effInterval cfg s.debounceInterval,
           action := .debounceFire f a }]) = _
      rw [timersFor_append, htimers]
      simp [timersFor, TimerAction.funcOf]
    · rw [hfr.2.2.1]
      exact htrace
    · rw [hfr.2.2.2.2.2.2.2.2.2]
      omega
    · constructor
      · intro g hgf c hc heq
        rw [hentry_g g hgf] at hc
        have := hsb.1 g c hc s.nextTimerId heq
        omega
      · intro cid c hc heq
        rw [hss.2] at hc
        have := hsb.2 cid c hc s.nextTimerId heq
        omega
    · rw [hfr.1]
      omega

lemma debounce_fcall_from_pending (cfg : Option TimedFunctionConfig) (f : FuncId)
    (a : List JsVal) (t I : Nat) (a₀ : List JsVal) (s : Sys) (hsb : slotIdsBound s)
    (hpd : DPending f t I a₀ s) :
    slotIdsBound (Performer.debounce cfg f a s) ∧
    DPending f s.now (effInterval cfg s.debounceInterval) a
      (Performer.debounce cfg f a s) := by
  obtain ⟨tid, hentry, htimers, htrace, hbound, hnos, hnow⟩ := hpd
  have hss := debounce_slotShape cfg f a s
  have hfr := debounce_frame cfg f a s
  have hentry_g : ∀ g, g ≠ f →
      (Performer.debounce cfg f a s).debounceCalls g = s.debounceCalls g := by
    intro g hgf
    rw [debounce_eq]
    dsimp only
    exact Function.update_noteq hgf _ _
  constructor
  · exact (slots_transfer (by rw [hfr.2.2.2.2.2.2.2.2.2]; omega) hss.1
      (fun cid c' hc => Or.inl (by rw [hss.2] at hc; exact hc))).1 hsb
  · refine ⟨s.nextTimerId, ?_, ?_, ?_, ?_, ?_, ?_⟩
    · rw [debounce_eq]
      dsimp only
      exact Function.update_same _ _ _
    · rw [debounce_eq]
      dsimp only
      rw [hentry]
      show timersFor f (s.pending.filter (fun tm => tm.id != tid) ++
        [{ id := s.nextTimerId, due := s.now + effInterval cfg s.debounceInterval,
           action := .debounceFire f a }]) = _
      rw [timersFor_append, timersFor_filter, htimers]
      simp [timersFor, TimerAction.funcOf]
    · rw [hfr.2.2.1]
      exact htrace
    · rw [hfr.2.2.2.2.2.2.2.2.2]
      omega
    · constructor
      · intro g hgf c hc heq
        rw [hentry_g g hgf] at hc
        have := hsb.1 g c hc s.nextTimerId heq
        omega
      · intro cid c hc heq
        rw [hss.2] at hc
        have := hsb.2 cid c hc s.nextTimerId heq
        omega
    · rw [hfr.1]
      omega

lemma lastPh_cons (ph : Option (Nat × Nat × List JsVal)) (x : Nat × Nat × List JsVal)
    (l : List (Nat × Nat × List JsVal)) :
    lastPh ph (x :: l) = lastPh (some x) l := by
  cases l with
  | nil => rfl
  | cons y ys =>
    simp only [lastPh, List.getLast?_cons_cons]
    cases h : (y :: ys).getLast? with
    | none =>
      rw [List.getLast?_eq_none_iff] at h
      exact absurd h (by simp)
    | some z => rfl

lemma debounce_script_phase (f : FuncId) :
    ∀ (script : List TimedEvent) (s : Sys) (ph : Option (Nat × Nat × List JsVal)),
      slotIdsBound s → DPhase f s ph →
      monoFrom s.now (script.map TimedEvent.t) = true →
      script.all (okDebEventB f) = true →
      spacedFrom (ph.map (fun p => (p.1, p.2.1))) (fCalls f s.debounceInterval script)
        = true →
      slotIdsBound (runScript script s) ∧
      DPhase f (runScript script s)
        (lastPh ph (fCalls f s.debounceInterval script)) := by
  intro script
  induction script with
  | nil =>
    intro s ph hsb hph _ _ _
    exact ⟨hsb, by simpa [fCalls, lastPh] using hph⟩
  | cons e rest ih =>
    obtain ⟨t, ev⟩ := e
    intro s ph hsb hph hmono hok hsp
    simp only [List.map_cons, monoFrom, Bool.and_eq_true, decide_eq_true_eq] at hmono
    obtain ⟨hle, hmono'⟩ := hmono
    simp only [List.all_cons, Bool.and_eq_true] at hok
    obtain ⟨hoke, hok'⟩ := hok
    have hstep : runScript ({ t := t, ev := ev } :: rest) s
        = runScript rest (dispatch ev (advanceTo t s)) := rfl
    obtain ⟨hsb₁, hph₁⟩ := advanceTo_phase f t s ph hsb hph
    have hnow₁ : (advanceTo t s).now = t := by
      rw [advanceTo_now]
      omega
    have hint₁ : (advanceTo t s).debounceInterval = s.debounceInterval :=
      congrArg Prod.fst (advanceTo_configOf t s)
    by_cases hf : ∃ c a, ev = Event.debounce c f a
    · obtain ⟨c, a, rfl⟩ := hf
      have hfc : fCalls f s.debounceInterval ({ t := t, ev := Event.debounce c f a } :: rest)
          = (t, effInterval c s.debounceInterval, a)
              :: fCalls f s.debounceInterval rest := by
        simp [fCalls, List.filterMap_cons, debCallOf]
      rw [hstep, hfc, lastPh_cons]
      rw [hfc] at hsp
      simp only [spacedFrom, Bool.and_eq_true] at hsp
      obtain ⟨hfirst, hsp'⟩ := hsp
      have hnew : slotIdsBound (Performer.debounce c f a (advanceTo t s)) ∧
          DPending f t (effInterval c s.debounceInterval) a
            (Performer.debounce c f a (advanceTo t s)) := by
        cases ph with
        | none =>
          have hd := debounce_fcall_from_pre c f a (advanceTo t s) hsb₁ hph₁
          rw [hnow₁, hint₁] at hd
          exact hd
        | some tIa =>
          obtain ⟨tp, Ip, ap⟩ := tIa
          rcases hph₁ with hpd | hfd
          · have hd := debounce_fcall_from_pending c f a tp Ip ap (advanceTo t s) hsb₁ hpd
            rw [hnow₁, hint₁] at hd
            exact hd
          · exfalso
            have h4 := hfd.2.2.2
            rw [hnow₁] at h4
            simp at hfirst
            omega
      have hfr := debounce_frame c f a (advanceTo t s)
      have hnow₂ : (Performer.debounce c f a (advanceTo t s)).now = t := by
        rw [hfr.1, hnow₁]
      have hint₂ : (Performer.debounce c f a (advanceTo t s)).debounceInterval
          = s.debounceInterval :=
        (congrArg Prod.fst hfr.2.2.2.2.2.2.2.2.1).trans hint₁
      obtain ⟨ihA, ihB⟩ := ih (Performer.debounce c f a (advanceTo t s))
        (some (t, effInterval c s.debounceInterval, a)) hnew.1 (Or.inl hnew.2)
        (by rw [hnow₂]; exact hmono') hok'
        (by rw [hint₂]; simpa using hsp')
      rw [hint₂] at ihB
      exact ⟨ihA, ihB⟩
    · have he : ev.funcOf ≠ f := by
        cases ev with
        | debounce c g a =>
          intro hcontra
          have hg : g = f := hcontra
          subst hg
          exact hf ⟨c, a, rfl⟩
        | throttle c g a =>
          have hb : (g != f) = true := by simpa [okDebEventB] using hoke
          exact (by simpa using hb : g ≠ f)
        | dedup c g a =>
          have hb : (g != f) = true := by simpa [okDebEventB] using hoke
          exact (by simpa using hb : g ≠ f)
        | limit c g a =>
          have hb : (g != f) = true := by simpa [okDebEventB] using hoke
          exact (by simpa using hb : g ≠ f)
      have hfc : fCalls f s.debounceInterval ({ t := t, ev := ev } :: rest)
          = fCalls f s.debounceInterval rest := by
        cases ev with
        | debounce c g a =>
          have hg : g ≠ f := he
          simp [fCalls, List.filterMap_cons, debCallOf, hg]
        | throttle c g a => simp [fCalls, List.filterMap_cons, debCallOf]
        | dedup c g a => simp [fCalls, List.filterMap_cons, debCallOf]
        | limit c g a => simp [fCalls, List.filterMap_cons, debCallOf]
      obtain ⟨hsb₂, hph₂, hnow₂, hcfg₂, _⟩ :=
        dispatch_distract_phase f ev (advanceTo t s) he ph hsb₁ hph₁
      have hint₂ : (dispatch ev (advanceTo t s)).debounceInterval
          = s.debounceInterval :=
        (congrArg Prod.fst hcfg₂).trans hint₁
      rw [hstep, hfc]
      rw [hfc] at hsp
      obtain ⟨ihA, ihB⟩ := ih (dispatch ev (advanceTo t s)) ph hsb₂ hph₂
        (by rw [hnow₂, hnow₁]; exact hmono') hok' (by rw [hint₂]; exact hsp)
      rw [hint₂] at ihB
      exact ⟨ihA, ihB⟩

/-- C1: for every finite burst of debounce calls on `fn` — possibly
interleaved with calls (of any strategy) on other function references — in
which every call after the first arrives strictly less than the effective
interval of the previous call after it, `fn` is invoked exactly once, at the
time of the last call plus its effective interval, with the argument list of
the most recent call; afterwards the registry holds no entry for `fn`.  The
interleaved calls on other function references never affect this. -/
theorem debounce_coalesces_burst (pc : Option PerformerConfig) (thr : FuncId → Bool)
    (f : FuncId) (script : List TimedEvent) (tL IL : Nat) (aL : List JsVal) (T : Nat)
    (hmono : monoFrom 0 (script.map TimedEvent.t) = true)
    (hok : script.all (okDebEventB f) = true)
    (hsp : spacedFrom none (fCalls f (Performer.init pc thr).debounceInterval script)
      = true)
    (hlast : (fCalls f (Performer.init pc thr).debounceInterval script).getLast?
      = some (tL, IL, aL))
    (hT : tL + IL ≤ T) :
    traceFor f (advanceTo T (runScript script (Performer.init pc thr))).trace
      = [{ time := tL + IL, func := f, args := aL }] ∧
    (advanceTo T (runScript script (Performer.init pc thr))).debounceCalls f = none := by
  have hsb₀ : slotIdsBound (Performer.init pc thr) := by
    constructor
    · intro g c hc
      simp [Performer.init] at hc
    · intro cid c hc
      simp [Performer.init] at hc
  have hph₀ : DPhase f (Performer.init pc thr) none := ⟨rfl, rfl, rfl⟩
  obtain ⟨hsbF, hphF⟩ := debounce_script_phase f script (Performer.init pc thr) none
    hsb₀ hph₀ hmono hok (by simpa using hsp)
  have hlp : lastPh none (fCalls f (Performer.init pc thr).debounceInterval script)
      = some (tL, IL, aL) := by
    simp [lastPh, hlast]
  rw [hlp] at hphF
  rcases hphF with hpd | hfd
  · have hfin := advanceLoop_fireF
      (runScript script (Performer.init pc thr)).pending.length T
      (runScript script (Performer.init pc thr)) le_rfl hpd hT
    exact ⟨hfin.2.2.1, hfin.1⟩
  · have hfin := advanceLoop_keepsFired
      (runScript script (Performer.init pc thr)).pending.length T
      (runScript script (Performer.init pc thr)) hfd
    exact ⟨hfin.2.2.1, hfin.1⟩

theorem debounce_coalesces_burst_witness :
    (monoFrom 0 (([{ t := 0, ev := .debounce none 0 [.num 1] },
        { t := 10, ev := .debounce none 0 [.num 2] },
        { t := 50, ev := .debounce none 0 [.num 3] }] : List TimedEvent).map
          TimedEvent.t) = true) ∧
    (([{ t := 0, ev := .debounce none 0 [.num 1] },
        { t := 10, ev := .debounce none 0 [.num 2] },
        { t := 50, ev := .debounce none 0 [.num 3] }] : List TimedEvent).all
      (okDebEventB 0) = true) ∧
    traceFor 0 (advanceTo 150 (runScript
        [{ t := 0, ev := .debounce none 0 [.num 1] },
         { t := 10, ev := .debounce none 0 [.num 2] },
         { t := 50, ev := .debounce none 0 [.num 3] }]
        (Performer.init
          (some { debounce := some { interval := some 100 }, throttle := none,
                  deduplication := none, limitation := none })
          (fun _ => false)))).trace
      = [{ time := 150, func := 0, args := [.num 3] }] := by
  refine ⟨by decide, by decide, ?_⟩
  have h := debounce_coalesces_burst
    (some { debounce := some { interval := some 100 }, throttle := none,
            deduplication := none, limitation := none })
    (fun _ => false) 0
    [{ t := 0, ev := .debounce none 0 [.num 1] },
     { t := 10, ev := .debounce none 0 [.num 2] },
     { t := 50, ev := .debounce none 0 [.num 3] }]
    50 100 [.num 3] 150 (by decide) (by decide) (by decide) (by decide) (by decide)
  exact h.1

end FunctionPerformer
